import Mathlib

/-!
Verification of the ByeLabs roster-processing core: the versioned record
store (`src/api/app/models.py`), the Commit-Version agent
(`src/api/app/agents/versioner.py`), the LangGraph orchestrator
(`src/api/app/orchestrator.py`), the simple sequential pipeline
(`src/api/app/simple_pipeline.py`) and the API-level operations for
ingestion, inline edit and rollback (`src/api/app/main.py`).

The database is modelled as explicit lists of rows with per-table
auto-increment counters.  A SQLAlchemy session that raises before
`db.commit()` leaves the database untouched, so each helper that opens its
own session either applies its whole effect or none of it.  Timestamps,
MinIO byte payloads and Excel rendering are external effects and are not
modelled (URIs and checksums appear as opaque constant strings).  External
collaborator stages (intake, classify, extract, VLM, normalize, validate)
are modelled abstractly by their returned key/value outcomes, exactly as the
orchestrator's node functions consume them; the core stages (Commit-Version,
persistence, export record creation) are embedded concretely.
-/

namespace ByeLabs

/-- JSON scalar values appearing in audit-log snapshots. -/
inductive JVal where
  | jstr (s : String)
  | jnat (n : Nat)
  | jnull
deriving DecidableEq, Repr

/-- An audit snapshot (`before_json` / `after_json`): a JSON object. -/
abbrev Snap := List (String × JVal)

/-- A record payload (`payload_json`): field name to extracted value. -/
abbrev Payload := List (String × String)

/-- The `models.JobStatus` enumeration. -/
inductive JobStatus where
  | pending
  | processing
  | needs_review
  | ready
  | failed
  | cancelled
deriving DecidableEq, Repr

/-- The `models.IssueLevel` enumeration. -/
inductive IssueLevel where
  | error
  | warning
  | info
deriving DecidableEq, Repr

/-- An uploaded EML byte string, represented by what ingestion observes of it:
the headers `email.message_from_bytes` parses out of the bytes, the byte
length, and the remaining bytes beyond those observations.  Every field is a
function of the raw bytes, so two requests with equal bytes agree on all of
them, while distinct byte strings may still share a Message-ID or a length. -/
structure EmlContent where
  message_id : String
  from_addr : String
  to_addr : String
  subject : String
  size : Nat
  body : Nat
deriving DecidableEq, Repr

/-- A row of the `emails` table (timestamps not modelled).  The `hash` column
holds the SHA-256 of the raw bytes; collision-resistance is modelled by
identifying the digest with the hashed byte string itself, so the column
stores the abstract content value and two hashes are equal exactly when the
uploaded bytes were. -/
structure EmailRow where
  id : Nat
  message_id : String
  from_addr : String
  to_addr : String
  subject : String
  raw_uri : String
  hash : EmlContent
deriving DecidableEq, Repr

/-- A row of the `jobs` table. -/
structure JobRow where
  id : Nat
  email_id : Nat
  status : JobStatus
  current_version_id : Option Nat
deriving DecidableEq, Repr

/-- A row of the `versions` table. -/
structure VersionRow where
  id : Nat
  job_id : Nat
  parent_version_id : Option Nat
  author : String
  reason : String
deriving DecidableEq, Repr

/-- A row of the `records` table; `(version_id, row_idx)` carries a
UNIQUE constraint (`uq_records_version_row`). -/
structure RecordRow where
  id : Nat
  job_id : Nat
  version_id : Nat
  row_idx : Nat
  payload_json : Payload
deriving DecidableEq, Repr

/-- A row of the `issues` table. -/
structure IssueRow where
  id : Nat
  version_id : Nat
  row_idx : Option Nat
  field : Option String
  level : IssueLevel
  message : String
deriving DecidableEq, Repr

/-- A row of the `exports` table. -/
structure ExportRow where
  id : Nat
  job_id : Nat
  version_id : Nat
  file_uri : String
  checksum : String
deriving DecidableEq, Repr

/-- A row of the `audit_logs` table. -/
structure AuditRow where
  id : Nat
  job_id : Nat
  actor : String
  action : String
  before_json : Option Snap
  after_json : Option Snap
deriving DecidableEq, Repr

/-- The whole store, with per-table auto-increment counters. -/
structure DB where
  emails : List EmailRow := []
  jobs : List JobRow := []
  versions : List VersionRow := []
  records : List RecordRow := []
  issues : List IssueRow := []
  exports : List ExportRow := []
  audits : List AuditRow := []
  nextEmailId : Nat := 1
  nextJobId : Nat := 1
  nextVersionId : Nat := 1
  nextRecordId : Nat := 1
  nextIssueId : Nat := 1
  nextExportId : Nat := 1
  nextAuditId : Nat := 1
deriving DecidableEq, Repr

/-- Lookup `db.query(Job).filter(Job.id == job_id).first()`. -/
def findJob (db : DB) (jid : Nat) : Option JobRow :=
  db.jobs.find? (fun j => j.id == jid)

/-- All records of one version (`db.query(Record).filter(Record.version_id == v)`). -/
def recordsOfVersion (db : DB) (vid : Nat) : List RecordRow :=
  db.records.filter (fun r => r.version_id == vid)

/-- All issues of one version. -/
def issuesOfVersion (db : DB) (vid : Nat) : List IssueRow :=
  db.issues.filter (fun i => i.version_id == vid)

/-- Apply an update to the job row with the given id. -/
def updateJobRow (db : DB) (jid : Nat) (f : JobRow → JobRow) : DB :=
  { db with jobs := db.jobs.map (fun j => if j.id == jid then f j else j) }

/-- The job's current-version pointer, if the job exists. -/
def currentVersionOf (db : DB) (jid : Nat) : Option Nat :=
  match findJob db jid with
  | some j => j.current_version_id
  | none => none

/-- The `(version_id, row_idx)` keys of all records, in table order. -/
def recordKeys (db : DB) : List (Nat × Nat) :=
  db.records.map (fun r => (r.version_id, r.row_idx))

/-- The UNIQUE constraint `uq_records_version_row` as a store invariant. -/
def RecordKeysUnique (db : DB) : Prop := (recordKeys db).Nodup

instance (db : DB) : Decidable (RecordKeysUnique db) :=
  inferInstanceAs (Decidable (recordKeys db).Nodup)

/-- An input row as carried in the processing state: `row.get("row_idx", 0)` and
`row.get("data", {})`. -/
structure InRow where
  row_idx : Option Nat := none
  data : Payload := []
deriving DecidableEq, Repr

/-- Reads `row.get("row_idx", 0)`. -/
def inRowIdx (r : InRow) : Nat := r.row_idx.getD 0

/-- An input issue as carried in the processing state. -/
structure InIssue where
  row_idx : Option Nat := none
  field : Option String := none
  level : IssueLevel := IssueLevel.warning
  message : String := ""
deriving DecidableEq, Repr

/-- Returns `true` iff the list has no duplicate entries. -/
def dupFree : List Nat → Bool
  | [] => true
  | x :: xs => !(xs.contains x) && dupFree xs

/-- The UNIQUE-constraint check performed by the database at commit time for a
bulk insert of rows with the given row indices into version `vid`: the batch
must be internally duplicate-free and must not collide with stored records. -/
def recordsInsertOk (db : DB) (vid : Nat) (idxs : List Nat) : Bool :=
  dupFree idxs && idxs.all (fun i => (recordsOfVersion db vid).all (fun r => r.row_idx != i))

/-- Insert one record row. -/
def insertRecord (db : DB) (jid vid idx : Nat) (payload : Payload) : DB :=
  { db with
    records := db.records ++ [⟨db.nextRecordId, jid, vid, idx, payload⟩],
    nextRecordId := db.nextRecordId + 1 }

/-- Bulk-insert input rows as records of version `vid`, in order
(versioner `_store_records` loop body). -/
def insertRecords (db : DB) (jid vid : Nat) : List InRow → DB
  | [] => db
  | r :: rs => insertRecords (insertRecord db jid vid (inRowIdx r) r.data) jid vid rs

namespace Versioner

/-- The internal steps of `versioner.run`, each opening its own database
session (`_create_version`, `_store_records`, `_store_issues`,
`_update_job_version`, `_create_audit_log`). -/
inductive Step where
  | createVersion
  | storeRecords
  | storeIssues
  | updateJob
  | auditLog
deriving DecidableEq, Repr

/-- The keys of the processing-state dict that `versioner.run` reads, with the
source's `state.get(..., default)` defaults already applied for absent keys. -/
structure AgentState where
  job_id : Option Nat := none
  rows : List InRow := []
  validation_issues : List InIssue := []
  error_count : Nat := 0
  author : String := "system"
  reason : String := "auto extract"
  parent_version_id : Option Nat := none
deriving DecidableEq, Repr

/-- Result of `versioner.run`: the store afterwards, the `error` key, and the
`version_id` key of the returned state (set only on success). -/
structure Outcome where
  db : DB
  error : Option String
  version_id : Option Nat
deriving DecidableEq, Repr

/-- Embeds `_store_issues`: versioner defaults `row_idx` to `0` and `field` to `""`. -/
def insertIssuesV (db : DB) (vid : Nat) : List InIssue → DB
  | [] => db
  | i :: is' =>
      insertIssuesV
        { db with
          issues := db.issues ++
            [⟨db.nextIssueId, vid, some (i.row_idx.getD 0), some (i.field.getD ""), i.level, i.message⟩],
          nextIssueId := db.nextIssueId + 1 }
        vid is'

/-- Step 5, `_create_audit_log`, then the successful return. -/
def finish (failAt : Option Step) (db : DB) (jid vid : Nat) (st : AgentState) : Outcome :=
  if failAt = some Step.auditLog then
    ⟨db, some "db failure: audit insert", none⟩
  else
    ⟨{ db with
        audits := db.audits ++
          [⟨db.nextAuditId, jid, "system", "version_created", none,
            some [("version_id", JVal.jnat vid), ("author", JVal.jstr st.author),
                  ("reason", JVal.jstr st.reason), ("record_count", JVal.jnat st.rows.length),
                  ("issue_count", JVal.jnat st.validation_issues.length)]⟩],
        nextAuditId := db.nextAuditId + 1 },
      none, some vid⟩

/-- Embeds `versioner.run`.  Each helper opens its own session and commits on its own;
an exception anywhere is caught by the top-level `except`, which sets the
`error` key.  `failAt` injects a database failure at the named step (the
failing step's own session rolls back; earlier steps are already committed).
`_update_job_version` with `error_count == 0` evaluates `JobStatus.COMPLETED`,
an enum member that does not exist, so that step always raises
`AttributeError` and its session rolls back. -/
def run (failAt : Option Step) (db0 : DB) (st : AgentState) : Outcome :=
  match st.job_id with
  | none => ⟨db0, some "Job ID is required for versioning", none⟩
  | some jid =>
    if failAt = some Step.createVersion then
      ⟨db0, some "db failure: version insert", none⟩
    else
      let vid := db0.nextVersionId
      let db1 : DB :=
        { db0 with
          versions := db0.versions ++ [⟨vid, jid, st.parent_version_id, st.author, st.reason⟩],
          nextVersionId := vid + 1 }
      if failAt = some Step.storeRecords ∨ recordsInsertOk db1 vid (st.rows.map inRowIdx) = false then
        ⟨db1, some "db failure: record bulk insert", none⟩
      else
        let db2 := insertRecords db1 jid vid st.rows
        if failAt = some Step.storeIssues then
          ⟨db2, some "db failure: issue bulk insert", none⟩
        else
          let db3 := insertIssuesV db2 vid st.validation_issues
          if failAt = some Step.updateJob then
            ⟨db3, some "db failure: job update", none⟩
          else
            match findJob db3 jid with
            | none => finish failAt db3 jid vid st
            | some _ =>
              if st.error_count > 0 then
                finish failAt
                  (updateJobRow db3 jid
                    (fun j => { j with current_version_id := some vid, status := JobStatus.needs_review }))
                  jid vid st
              else
                ⟨db3, some "type object JobStatus has no attribute COMPLETED", none⟩

end Versioner

namespace Orchestrator

/-- The `orchestrator.ProcessingState` statuses (`Literal["pending", "processing",
"needs_review", "ready", "failed"]`). -/
inductive PStatus where
  | pending
  | processing
  | needs_review
  | ready
  | failed
deriving DecidableEq, Repr

/-- The outcomes of the external collaborator agents for one run, exactly the
keys the orchestrator's node functions read from each agent's returned dict.
An agent that raised internally returns with `error` set and without its
output keys; `none`/`[]` fields mean the corresponding key is absent. -/
structure AgentsOutcome where
  intakeErr : Option String := none
  classifyErr : Option String := none
  requires_vlm : Bool := false
  extractErr : Option String := none
  extractRows : List InRow := []
  vlmErr : Option String := none
  vlmRows : List InRow := []
  normErr : Option String := none
  normRows : Option (List InRow) := none
  valErr : Option String := none
  valIssues : List InIssue := []
  valErrorCount : Nat := 0
deriving DecidableEq, Repr

/-- The LangGraph `ProcessingState` (artifacts, route map and notes are not
claim-relevant and are omitted). -/
structure PState where
  job_id : Nat
  version_id : Option Nat := none
  rows : List InRow := []
  issues : List InIssue := []
  status : PStatus := PStatus.pending
  needs_vlm : Bool := false
  vlm_used : Bool := false
  force_vlm_toggle : Bool := false
  error : Option String := none
  failed_agent : Option String := none
deriving DecidableEq, Repr

/-- Embeds `intake_node`: runs the intake agent, then copies its error if any. -/
def intake_node (o : AgentsOutcome) (s : PState) : PState :=
  match o.intakeErr with
  | some e => { s with error := some e, failed_agent := some "intake_email", status := PStatus.failed }
  | none => s

/-- Embeds `classify_node`: `needs_vlm` comes from `result.get("classification", {})`,
which is the empty dict when the agent errored. -/
def classify_node (o : AgentsOutcome) (s : PState) : PState :=
  match o.classifyErr with
  | some e =>
      { s with needs_vlm := false, error := some e, failed_agent := some "classifier",
               status := PStatus.failed }
  | none => { s with needs_vlm := o.requires_vlm }

/-- Embeds `extract_node`: an error from either extractor is re-raised and caught,
leaving `rows` untouched; on success `rows := result.get("extracted_data", [])`. -/
def extract_node (o : AgentsOutcome) (s : PState) : PState :=
  match o.extractErr with
  | some e => { s with error := some e, failed_agent := some "extract", status := PStatus.failed }
  | none => { s with rows := o.extractRows }

/-- Embeds `vlm_assist_node`: replaces `rows` only when `vlm_data["extracted_data"]`
is truthy (a non-empty list). -/
def vlm_assist_node (o : AgentsOutcome) (s : PState) : PState :=
  let s1 := if o.vlmRows ≠ [] then { s with rows := o.vlmRows, vlm_used := true } else s
  match o.vlmErr with
  | some e => { s1 with error := some e, failed_agent := some "vlm_client", status := PStatus.failed }
  | none => s1

/-- Embeds `normalize_node`: `rows := result.get("normalized_data", state.get("rows"))`. -/
def normalize_node (o : AgentsOutcome) (s : PState) : PState :=
  match o.normErr with
  | some e => { s with error := some e, failed_agent := some "normalizer", status := PStatus.failed }
  | none => { s with rows := o.normRows.getD s.rows }

/-- Embeds `validate_node`: copies `validation_issues`, and sets `needs_review` when
`validation_stats["error_count"] > 0`; both keys are absent when the agent
errored, in which case the issue list is the empty default. -/
def validate_node (o : AgentsOutcome) (s : PState) : PState :=
  match o.valErr with
  | some e =>
      { s with issues := [], error := some e, failed_agent := some "validator",
               status := PStatus.failed }
  | none =>
      { s with issues := o.valIssues,
               status := if o.valErrorCount > 0 then PStatus.needs_review else s.status }

/-- Embeds `version_node`: the agent state handed to the versioner carries the rows
under `validated_data` and no `validation_stats`, so the versioner reads its
defaults `rows = []` and `error_count = 0`; `parent_version_id` is never
passed.  After the call, `version_info` is not a key of the result (the
versioner sets `version_id` at the top level), so `state["version_id"]`
becomes `None`. -/
def version_node (db : DB) (s : PState) : DB × PState :=
  let out := Versioner.run none db
    { job_id := some s.job_id, rows := [], validation_issues := s.issues,
      error_count := 0, author := "system", reason := "auto extract",
      parent_version_id := none }
  let s1 := { s with version_id := none }
  match out.error with
  | some e =>
      (out.db, { s1 with error := some e, failed_agent := some "versioner", status := PStatus.failed })
  | none => (out.db, s1)

/-- Embeds `exporter_excel.run` restricted to its database effect: requires truthy
`job_id` and `version_id`; with no records for the version it returns without
error and without creating an Export; otherwise it inserts one Export row
(file bytes, URI and checksum are external and appear as constants). -/
def exporter_run (db : DB) (job_id version_id : Option Nat) : DB × Option String :=
  if job_id.getD 0 = 0 ∨ version_id.getD 0 = 0 then
    (db, some "Job ID and Version ID are required for export")
  else
    let jid := job_id.getD 0
    let vid := version_id.getD 0
    if recordsOfVersion db vid = [] then (db, none)
    else
      ({ db with
          exports := db.exports ++
            [⟨db.nextExportId, jid, vid, "s3://hilabs-artifacts/exports/roster.xlsx", "sha256"⟩],
          nextExportId := db.nextExportId + 1 },
        none)

/-- Embeds `export_node`: the agent state nests the version id under `version_info`,
so the exporter's `state.get("version_id")` is `None` and it raises; the node
sets `status = "ready"` before the error check, which then flips it to
`failed`. -/
def export_node (db : DB) (s : PState) : DB × PState :=
  let (db1, err) := exporter_run db (some s.job_id) none
  let s1 := { s with status := PStatus.ready }
  match err with
  | some e =>
      (db1, { s1 with error := some e, failed_agent := some "exporter_excel", status := PStatus.failed })
  | none => (db1, s1)

/-- The nodes of `create_processing_graph`. -/
inductive Stage where
  | intake
  | classify
  | extract
  | vlm_assist
  | normalize
  | validate
  | version
  | exportExcel
deriving DecidableEq, Repr

/-- Conditional edge after `extract`. -/
def should_use_vlm (s : PState) : Bool := s.needs_vlm || s.force_vlm_toggle

/-- Conditional edge after `validate`: `true` means continue to `version`,
`false` means END. -/
def should_continue_after_validate (s : PState) : Bool :=
  !(s.status == PStatus.needs_review)

/-- One graph invocation from the entry point: the fixed edge sequence of
`create_processing_graph` (all edges between ordinary nodes are
unconditional — no edge tests `error`).  Returns the store, the final state
and the list of executed stages. -/
def graphExec (o : AgentsOutcome) (db : DB) (s0 : PState) : DB × PState × List Stage :=
  let s1 := intake_node o s0
  let s2 := classify_node o s1
  let s3 := extract_node o s2
  let (s4, tVlm) :=
    if should_use_vlm s3 then (vlm_assist_node o s3, [Stage.vlm_assist]) else (s3, [])
  let s5 := normalize_node o s4
  let s6 := validate_node o s5
  let pre := [Stage.intake, Stage.classify, Stage.extract] ++ tVlm ++
    [Stage.normalize, Stage.validate]
  if should_continue_after_validate s6 then
    let (db1, s7) := version_node db s6
    let (db2, s8) := export_node db1 s7
    (db2, s8, pre ++ [Stage.version, Stage.exportExcel])
  else
    (db, s6, pre)

/-- Issue insert loop in `_persist_graph_results`: `row_idx` and `field` keep
their (possibly null) values. -/
def insertIssuesP (db : DB) (vid : Nat) : List InIssue → DB
  | [] => db
  | i :: is' =>
      insertIssuesP
        { db with
          issues := db.issues ++ [⟨db.nextIssueId, vid, i.row_idx, i.field, i.level, i.message⟩],
          nextIssueId := db.nextIssueId + 1 }
        vid is'

/-- The single-commit tail of `_persist_graph_results`, once the target
version id and the store holding the (possibly just-created) Version row are
fixed: record inserts read `row["row_idx"]` (a KeyError when the key is
absent) and are subject to the `(version_id, row_idx)` UNIQUE constraint at
commit time; `none` models the re-raised exception (session rolled back). -/
def persistWith (db1 : DB) (s : PState) (jstatus : JobStatus) (vid : Nat) : Option DB :=
  if s.rows.any (fun r => r.row_idx.isNone) then none
  else if recordsInsertOk db1 vid (s.rows.map inRowIdx) = false then none
  else
    some (updateJobRow (insertIssuesP (insertRecords db1 s.job_id vid s.rows) vid s.issues)
      s.job_id (fun j => { j with status := jstatus, current_version_id := some vid }))

/-- The job status written by `_persist_graph_results`. -/
def persistStatus (s : PState) : JobStatus :=
  if s.status = PStatus.ready then JobStatus.ready
  else if s.status = PStatus.needs_review then JobStatus.needs_review
  else JobStatus.failed

/-- Embeds `_persist_graph_results`: returns without touching the store when the job
is missing; otherwise creates a Version row when the state carries no
`version_id`, then bulk-inserts records and issues, sets the job status and
repoints `current_version_id`, all in one commit. -/
def persist_graph_results (db : DB) (s : PState) : Option DB :=
  match findJob db s.job_id with
  | none => some db
  | some _ =>
    match s.version_id with
    | some v => persistWith db s (persistStatus s) v
    | none =>
      persistWith
        { db with
          versions := db.versions ++
            [⟨db.nextVersionId, s.job_id, none, "system", "LangGraph orchestrated processing"⟩],
          nextVersionId := db.nextVersionId + 1 }
        s (persistStatus s) db.nextVersionId

/-- The result dict returned by `run_graph` / `resume_graph`. -/
structure RunResult where
  job_id : Nat
  status : PStatus
  version_id : Option Nat := none
  error : Option String := none
  failed_agent : Option String := none
  resumed : Bool := false
deriving DecidableEq, Repr

/-- Embeds `run_graph`: fresh initial state, one graph invocation, then
`_persist_graph_results`; a persistence exception is caught and turned into a
failed result (the graph nodes' own sessions are already committed). -/
def run_graph (o : AgentsOutcome) (db : DB) (jid : Nat) : DB × RunResult × List Stage :=
  let s0 : PState := { job_id := jid, status := PStatus.processing }
  let (db1, s, tr) := graphExec o db s0
  match persist_graph_results db1 s with
  | some db2 =>
      (db2, { job_id := jid, status := s.status, version_id := s.version_id,
              error := s.error, failed_agent := s.failed_agent }, tr)
  | none => (db1, { job_id := jid, status := PStatus.failed, error := some "persist failed" }, tr)

/-- Embeds `resume_graph`: reconstructs the state from the stored Records and Issues
of `vid` and re-invokes the graph (the compiled graph is re-built with a fresh
in-memory checkpointer, so invocation starts at the entry point).  The
reconstructed state has `version_id = vid` and no `parent_version_id` field
exists on the state at all. -/
def resume_graph (o : AgentsOutcome) (db : DB) (jid vid : Nat) : DB × RunResult × List Stage :=
  match findJob db jid with
  | none =>
      (db, { job_id := jid, status := PStatus.failed, error := some "Job not found",
             resumed := true }, [])
  | some _ =>
    match db.versions.find? (fun v => v.id == vid) with
    | none =>
        (db, { job_id := jid, status := PStatus.failed, error := some "Version not found",
               resumed := true }, [])
    | some _ =>
      let rows := (recordsOfVersion db vid).map
        (fun r => ({ row_idx := some r.row_idx, data := r.payload_json } : InRow))
      let issues := (issuesOfVersion db vid).map
        (fun i => ({ row_idx := i.row_idx, field := i.field, level := i.level,
                     message := i.message } : InIssue))
      let s0 : PState :=
        { job_id := jid, version_id := some vid, rows := rows, issues := issues,
          status := PStatus.processing }
      let (db1, s, tr) := graphExec o db s0
      match persist_graph_results db1 s with
      | some db2 =>
          (db2, { job_id := jid, status := s.status, version_id := s.version_id,
                  error := s.error, failed_agent := s.failed_agent, resumed := true }, tr)
      | none =>
          (db1, { job_id := jid, status := PStatus.failed, error := some "persist failed",
                  resumed := true }, tr)

end Orchestrator

namespace SimplePipeline

open Orchestrator (AgentsOutcome PStatus RunResult exporter_run)

/-- The steps of `process_job_simple`.  The PDF sub-step is gated on
`state["route_map"]["type"]`, but on this path no agent ever writes the
`route_map` key (the classifier writes `classification`), so the gate never
fires and `extract_pdf` is never run; the VLM step is skipped explicitly. -/
inductive SStage where
  | intake
  | classify
  | extract
  | normalize
  | validate
  | versioner
  | exporter
deriving DecidableEq, Repr

/-- A failed-pipeline result (`status = "failed"` with the raised message). -/
def failedResult (jid : Nat) (e : String) : RunResult :=
  { job_id := jid, status := PStatus.failed, error := some e }

/-- Embeds `process_job_simple`: the sequential pipeline over one shared state dict.
After every step it checks `state.get("error")` and raises, so it
short-circuits on the first stage that errors.  The versioner receives the
full state, hence real `rows`, `validation_issues` and `validation_stats`
keys; the exporter then sees the `version_id` key the versioner wrote. -/
def process_job_simple (o : AgentsOutcome) (db : DB) (jid : Nat) :
    DB × RunResult × List SStage :=
  match o.intakeErr with
  | some e => (db, failedResult jid ("Intake failed: " ++ e), [SStage.intake])
  | none =>
  match o.classifyErr with
  | some e => (db, failedResult jid ("Classification failed: " ++ e), [SStage.intake, SStage.classify])
  | none =>
  match o.extractErr with
  | some e =>
      (db, failedResult jid ("Rule extraction failed: " ++ e),
        [SStage.intake, SStage.classify, SStage.extract])
  | none =>
  let rows0 := o.extractRows
  match o.normErr with
  | some e =>
      (db, failedResult jid ("Normalization failed: " ++ e),
        [SStage.intake, SStage.classify, SStage.extract, SStage.normalize])
  | none =>
  let rows1 := o.normRows.getD rows0
  match o.valErr with
  | some e =>
      (db, failedResult jid ("Validation failed: " ++ e),
        [SStage.intake, SStage.classify, SStage.extract, SStage.normalize, SStage.validate])
  | none =>
  let out := Versioner.run none db
    { job_id := some jid, rows := rows1, validation_issues := o.valIssues,
      error_count := o.valErrorCount, author := "system", reason := "auto extract",
      parent_version_id := none }
  match out.error with
  | some e =>
      (out.db, failedResult jid ("Versioning failed: " ++ e),
        [SStage.intake, SStage.classify, SStage.extract, SStage.normalize, SStage.validate,
         SStage.versioner])
  | none =>
  let (db2, err) := exporter_run out.db (some jid) out.version_id
  match err with
  | some e =>
      (db2, failedResult jid ("Export failed: " ++ e),
        [SStage.intake, SStage.classify, SStage.extract, SStage.normalize, SStage.validate,
         SStage.versioner, SStage.exporter])
  | none =>
      (db2, { job_id := jid, status := PStatus.ready, version_id := out.version_id },
        [SStage.intake, SStage.classify, SStage.extract, SStage.normalize, SStage.validate,
         SStage.versioner, SStage.exporter])

end SimplePipeline

namespace MainApi

/-- Embeds `filename.lower().endswith(".eml")`, modelled over the character list
(the primitive string functions do not reduce in the kernel). -/
def lowerEndsWithEml (s : String) : Bool :=
  (s.data.map Char.toLower).reverse.take 4 == ['l', 'm', 'e', '.']

/-- The inputs of the `/ingest-eml` endpoint: the upload's filename and the
uploaded bytes.  The handler derives everything else from the bytes — the
length, the parsed headers (`EmlContent`'s header fields) and the SHA-256
content hash (the abstract content value itself, see `EmailRow.hash`) — so a
request cannot pair one content's hash with another content's Message-ID. -/
structure IngestReq where
  filename : String
  content : EmlContent
deriving DecidableEq, Repr

/-- The observable response of the `/ingest-eml` endpoint. -/
inductive IngestResp where
  | badRequest (detail : String)
  | serverError
  | dup (job_id : Nat)
  | created (job_id email_id version_id : Nat)
deriving DecidableEq, Repr

/-- The creation tail of `ingest_eml_file`: Email, Job, initial Version,
pointer update and audit entry are flushed and committed as one transaction;
the UNIQUE constraint on `emails.message_id` is checked at that commit, and a
violation rolls the whole transaction back (HTTP 500). -/
def ingestCreate (db : DB) (rq : IngestReq) : DB × IngestResp :=
  if db.emails.any (fun e => e.message_id == rq.content.message_id) then
    (db, IngestResp.serverError)
  else
    let eid := db.nextEmailId
    let jid := db.nextJobId
    let vid := db.nextVersionId
    ({ db with
        emails := db.emails ++
          [⟨eid, rq.content.message_id, rq.content.from_addr, rq.content.to_addr,
            rq.content.subject, "s3://raw/object.eml", rq.content⟩],
        jobs := db.jobs ++ [⟨jid, eid, JobStatus.pending, some vid⟩],
        versions := db.versions ++ [⟨vid, jid, none, "system", "Initial ingestion"⟩],
        audits := db.audits ++
          [⟨db.nextAuditId, jid, "api", "create", none,
            some [("email_id", JVal.jnat eid), ("status", JVal.jstr "pending"),
                  ("version_id", JVal.jnat vid)]⟩],
        nextEmailId := eid + 1, nextJobId := jid + 1, nextVersionId := vid + 1,
        nextAuditId := db.nextAuditId + 1 },
      IngestResp.created jid eid vid)

/-- Embeds `ingest_eml_file`: validations, duplicate check on Message-ID or content
hash, then either the early duplicate return (only when the matched Email has
a Job) or creation.  `max_mb` is `settings.max_upload_mb`. -/
def ingest_eml_file (db : DB) (max_mb : Nat) (rq : IngestReq) : DB × IngestResp :=
  if rq.filename = "" then (db, IngestResp.badRequest "No filename provided")
  else if lowerEndsWithEml rq.filename = false then
    (db, IngestResp.badRequest "File must be an EML file")
  else if rq.content.size = 0 then (db, IngestResp.badRequest "Empty file")
  else if max_mb * 1024 * 1024 < rq.content.size then
    (db, IngestResp.badRequest "File too large")
  else if rq.content.message_id = "" then
    (db, IngestResp.badRequest "Missing Message-ID header")
  else if rq.content.from_addr = "" then (db, IngestResp.badRequest "Missing From header")
  else
    match db.emails.find?
        (fun e => e.message_id == rq.content.message_id || e.hash == rq.content) with
    | some e =>
      match db.jobs.find? (fun j => j.email_id == e.id) with
      | some j => (db, IngestResp.dup j.id)
      | none => ingestCreate db rq
    | none => ingestCreate db rq

/-- Embeds `_validate_record_data` (main.py): required-field and NPI-format checks. -/
def validate_record_data (d : Payload) (row_idx : Nat) : List InIssue :=
  let get := fun (k : String) => ((d.find? (fun p => p.1 == k)).map (·.2)).getD ""
  let required := ["NPI", "Provider Name", "Specialty", "Effective Date"]
  let missing := required.filterMap (fun f =>
    if (get f).trim = "" then
      some ({ row_idx := some row_idx, field := some f, level := IssueLevel.error,
              message := "Required field is missing" } : InIssue)
    else none)
  let npi := (get "NPI").trim
  let npiIssues :=
    if npi ≠ "" ∧ (npi.length ≠ 10 ∨ npi.all Char.isDigit = false) then
      [({ row_idx := some row_idx, field := some "NPI", level := IssueLevel.error,
          message := "Invalid NPI format" } : InIssue)]
    else []
  missing ++ npiIssues

/-- Python dict assignment `d[k] = v`: replace in place or append. -/
def setPayload : Payload → String → String → Payload
  | [], k, v => [(k, v)]
  | (k0, v0) :: rest, k, v =>
      if k0 = k then (k, v) :: rest else (k0, v0) :: setPayload rest k v

/-- Stable insertion into a row-index-ordered list (`ORDER BY row_idx`). -/
def insertByRowIdx (r : RecordRow) : List RecordRow → List RecordRow
  | [] => [r]
  | x :: xs => if r.row_idx ≤ x.row_idx then r :: x :: xs else x :: insertByRowIdx r xs

/-- The `ORDER BY row_idx` ordering of a record list. -/
def orderByRowIdx : List RecordRow → List RecordRow
  | [] => []
  | x :: xs => insertByRowIdx x (orderByRowIdx xs)

/-- Copy the current version's records into version `vid`, applying the edit
to the record object that was mutated in memory. -/
def copyRecords (db : DB) (jid vid targetId ridx : Nat) (f v : String) :
    List RecordRow → DB
  | [] => db
  | r :: rs =>
      copyRecords
        (insertRecord db jid vid r.row_idx
          (if r.id = targetId then setPayload r.payload_json f v else r.payload_json))
        jid vid targetId ridx f v rs

/-- Issue insert loop of `ui_edit_record` (second commit). -/
def insertIssuesE (db : DB) (vid : Nat) : List InIssue → DB
  | [] => db
  | i :: is' =>
      insertIssuesE
        { db with
          issues := db.issues ++ [⟨db.nextIssueId, vid, i.row_idx, i.field, i.level, i.message⟩],
          nextIssueId := db.nextIssueId + 1 }
        vid is'

/-- The new-Version insert of `ui_edit_record` (first statement of its
transaction): a Version whose parent is the current version. -/
def editBase (db : DB) (jid cur : Nat) : DB :=
  { db with
    versions := db.versions ++ [⟨db.nextVersionId, jid, some cur, "user", "Edit field in row"⟩],
    nextVersionId := db.nextVersionId + 1 }

/-- The success path of `ui_edit_record` after the target record was found:
insert the new Version, copy the current version's records into it with the
edit applied, repoint the job (first commit), then insert the re-validation
issues (second commit).  The re-validation reads the edited record back from
the database after the first commit, and since the in-place mutation of the
plain JSON column was never flushed it sees the OLD payload. -/
def editApply (db : DB) (jid ridx : Nat) (f value : String) (cur : Nat)
    (target : RecordRow) : DB :=
  insertIssuesE
    (updateJobRow
      (copyRecords (editBase db jid cur) jid db.nextVersionId target.id ridx f value
        (orderByRowIdx (recordsOfVersion db cur)))
      jid (fun j => { j with current_version_id := some db.nextVersionId }))
    db.nextVersionId (validate_record_data target.payload_json ridx)

/-- Embeds `ui_edit_record`: loads the current version's records (ordered by
`row_idx`), mutates the matching record's `payload_json` dict in memory,
creates a new Version with `parent_version_id = current`, copies every record
into it (the edited one with the new value), repoints the job and commits.
The in-place mutation of a plain (non-mutable-tracked) SQLAlchemy `JSON`
column is never flushed, so the stored rows of the old version are unchanged.
Returns the store and whether the request succeeded. -/
def ui_edit_record (db : DB) (jid ridx : Nat) (f v : String) : DB × Bool :=
  let value := v.trim
  match findJob db jid with
  | none => (db, false)
  | some job =>
    match job.current_version_id with
    | none => (db, false)
    | some cur =>
      let records := orderByRowIdx (recordsOfVersion db cur)
      match records.find? (fun r => r.row_idx == ridx) with
      | none => (db, false)
      | some target =>
        if recordsInsertOk (editBase db jid cur) db.nextVersionId
            (records.map (fun r => r.row_idx)) = false then (db, false)
        else
          (editApply db jid ridx f value cur target, true)

/-- Embeds `rollback_to_version`: validates that the version belongs to the job,
repoints the job and writes one audit entry.  The audit dicts are built after
`job.current_version_id` has already been assigned the target, so both
snapshots hold the NEW pointer. -/
def rollback_to_version (db : DB) (jid vid : Nat) : DB × Bool :=
  match findJob db jid, db.versions.find? (fun w => w.id == vid && w.job_id == jid) with
  | some _, some _ =>
      let db1 := updateJobRow db jid (fun j => { j with current_version_id := some vid })
      ({ db1 with
          audits := db1.audits ++
            [⟨db1.nextAuditId, jid, "user", "rollback",
              some [("current_version_id", JVal.jnat vid)],
              some [("current_version_id", JVal.jnat vid)]⟩],
          nextAuditId := db1.nextAuditId + 1 },
        true)
  | _, _ => (db, false)

end MainApi

/-- The rows that reach the validate node of the graph for a run that starts
with empty rows and no force flag: the extract output, optionally replaced by
a non-empty VLM output, optionally rewritten by the normalizer. -/
def Orchestrator.routedRows (o : Orchestrator.AgentsOutcome) : List InRow :=
  let afterVlm :=
    if o.requires_vlm then (if o.vlmRows ≠ [] then o.vlmRows else o.extractRows)
    else o.extractRows
  o.normRows.getD afterVlm

/-- The processing state reached right after the validate node when every
collaborator succeeded and validation reported a positive error count. -/
def Orchestrator.stateAfterValidate (o : Orchestrator.AgentsOutcome) (jid : Nat) :
    Orchestrator.PState :=
  { job_id := jid, version_id := none, rows := Orchestrator.routedRows o,
    issues := o.valIssues, status := Orchestrator.PStatus.needs_review,
    needs_vlm := o.requires_vlm, vlm_used := o.requires_vlm && !(o.vlmRows == []),
    force_vlm_toggle := false, error := none, failed_agent := none }

/-- The stage trace of a run stopped by the review gate. -/
def Orchestrator.gateTrace (o : Orchestrator.AgentsOutcome) : List Orchestrator.Stage :=
  [Orchestrator.Stage.intake, Orchestrator.Stage.classify, Orchestrator.Stage.extract] ++
    (if o.requires_vlm then [Orchestrator.Stage.vlm_assist] else []) ++
    [Orchestrator.Stage.normalize, Orchestrator.Stage.validate]

section Fixtures

/-- A store holding one freshly ingested job with no versions yet. -/
def dbJob1 : DB := { jobs := [⟨1, 1, JobStatus.pending, none⟩], nextJobId := 2 }

/-- A store holding job 1 whose current version 1 has one record and one issue. -/
def dbJob1V1 : DB :=
  { jobs := [⟨1, 1, JobStatus.needs_review, some 1⟩],
    versions := [⟨1, 1, none, "system", "auto extract"⟩],
    records := [⟨1, 1, 1, 0, [("NPI", "12")]⟩],
    issues := [⟨1, 1, some 0, some "NPI", IssueLevel.error, "Invalid NPI format"⟩],
    nextJobId := 2, nextVersionId := 2, nextRecordId := 2, nextIssueId := 2 }

/-- One well-formed extracted row. -/
def rowNPI : InRow := { row_idx := some 0, data := [("NPI", "1234567890")] }

/-- One error-severity validation issue. -/
def issueNPI : InIssue :=
  { row_idx := some 0, field := some "NPI", level := IssueLevel.error,
    message := "Invalid NPI format" }

/-- Collaborator outcomes for a fully successful run with no issues. -/
def oGood : Orchestrator.AgentsOutcome := { extractRows := [rowNPI] }

/-- Collaborator outcomes for a run whose validation finds one error issue. -/
def oBad : Orchestrator.AgentsOutcome :=
  { extractRows := [rowNPI], valIssues := [issueNPI], valErrorCount := 1 }

/-- Collaborator outcomes where the intake stage fails. -/
def oIntakeFail : Orchestrator.AgentsOutcome := { intakeErr := some "boom" }

/-- A versioner input state with one row and no issues. -/
def stRows : Versioner.AgentState := { job_id := some 1, rows := [rowNPI] }

/-- A versioner input state whose two rows collide on `row_idx` (both default
to 0 when the key is absent). -/
def stDup : Versioner.AgentState :=
  { job_id := some 1,
    rows := [{ data := [("NPI", "1234567890")] }, { data := [("NPI", "1234567891")] }] }

/-- A store for rollback: job 1 currently points at version 5; version 3 is an
earlier version with data. -/
def dbRollback : DB :=
  { jobs := [⟨1, 1, JobStatus.ready, some 5⟩],
    versions := [⟨3, 1, none, "system", "auto extract"⟩, ⟨5, 1, some 3, "user", "edit"⟩],
    records := [⟨1, 1, 3, 0, [("NPI", "12")]⟩],
    issues := [⟨1, 3, some 0, some "NPI", IssueLevel.error, "Invalid NPI format"⟩],
    nextJobId := 2, nextVersionId := 6, nextRecordId := 2, nextIssueId := 2 }

/-- The byte string of an email already ingested once. -/
def cOld : EmlContent :=
  { message_id := "m1", from_addr := "a@x", to_addr := "b@x", subject := "s",
    size := 10, body := 0 }

/-- A store holding one already-ingested email with its job. -/
def dbDup : DB :=
  { emails := [⟨1, "m1", "a@x", "b@x", "s", "s3://raw/object.eml", cOld⟩],
    jobs := [⟨1, 1, JobStatus.ready, none⟩],
    nextEmailId := 2, nextJobId := 2 }

/-- An ingest request whose bytes differ from the stored email's (a longer
body) but carry the same Message-ID header. -/
def rqDup : MainApi.IngestReq :=
  { filename := "roster.eml",
    content := { message_id := "m1", from_addr := "a@x", to_addr := "b@x",
                 subject := "s", size := 12, body := 1 } }

/-- A store holding an email whose job has been cleaned up (the cleanup task
deletes Jobs and Versions but not Emails). -/
def dbOrphan : DB :=
  { emails := [⟨1, "m1", "a@x", "b@x", "s", "s3://raw/object.eml", cOld⟩], nextEmailId := 2 }

/-- An ingest request re-uploading exactly the stored email's bytes, so both
its content hash and its Message-ID match the stored email. -/
def rqSame : MainApi.IngestReq :=
  { filename := "roster.eml", content := cOld }

/-- A fully fresh ingest request. -/
def rqFresh : MainApi.IngestReq :=
  { filename := "roster.eml",
    content := { message_id := "m9", from_addr := "a@x", to_addr := "b@x",
                 subject := "s", size := 10, body := 0 } }

end Fixtures

section Lemmas

theorem dupFree_eq_true_iff_nodup (l : List Nat) : dupFree l = true ↔ l.Nodup := by
  induction l with
  | nil => simp [dupFree]
  | cons x xs ih =>
      rw [List.nodup_cons, ← ih, dupFree]
      rw [Bool.and_eq_true, Bool.not_eq_true', ← Bool.not_eq_true]
      rw [show (xs.contains x = true) = (x ∈ xs) from propext List.elem_iff]

theorem recordsOfVersion_eq_nil_of_fresh (db : DB) (vid : Nat)
    (h : ∀ r ∈ db.records, r.version_id ≠ vid) : recordsOfVersion db vid = [] := by
  simp only [recordsOfVersion, List.filter_eq_nil_iff]
  intro r hr
  simpa using h r hr

theorem recordsInsertOk_of_fresh (db : DB) (vid : Nat) (idxs : List Nat)
    (h : ∀ r ∈ db.records, r.version_id ≠ vid) :
    recordsInsertOk db vid idxs = dupFree idxs := by
  simp [recordsInsertOk, recordsOfVersion_eq_nil_of_fresh db vid h]

theorem insertRecords_emails (db : DB) (jid vid : Nat) (rows : List InRow) :
    (insertRecords db jid vid rows).emails = db.emails := by
  induction rows generalizing db with
  | nil => rfl
  | cons r rs ih => simp [insertRecords, ih, insertRecord]

theorem insertRecords_jobs (db : DB) (jid vid : Nat) (rows : List InRow) :
    (insertRecords db jid vid rows).jobs = db.jobs := by
  induction rows generalizing db with
  | nil => rfl
  | cons r rs ih => simp [insertRecords, ih, insertRecord]

theorem insertRecords_versions (db : DB) (jid vid : Nat) (rows : List InRow) :
    (insertRecords db jid vid rows).versions = db.versions := by
  induction rows generalizing db with
  | nil => rfl
  | cons r rs ih => simp [insertRecords, ih, insertRecord]

theorem insertRecords_issues (db : DB) (jid vid : Nat) (rows : List InRow) :
    (insertRecords db jid vid rows).issues = db.issues := by
  induction rows generalizing db with
  | nil => rfl
  | cons r rs ih => simp [insertRecords, ih, insertRecord]

theorem insertRecords_exports (db : DB) (jid vid : Nat) (rows : List InRow) :
    (insertRecords db jid vid rows).exports = db.exports := by
  induction rows generalizing db with
  | nil => rfl
  | cons r rs ih => simp [insertRecords, ih, insertRecord]

theorem insertRecords_audits (db : DB) (jid vid : Nat) (rows : List InRow) :
    (insertRecords db jid vid rows).audits = db.audits := by
  induction rows generalizing db with
  | nil => rfl
  | cons r rs ih => simp [insertRecords, ih, insertRecord]

theorem insertRecords_keys (db : DB) (jid vid : Nat) (rows : List InRow) :
    recordKeys (insertRecords db jid vid rows) =
      recordKeys db ++ rows.map (fun r => (vid, inRowIdx r)) := by
  induction rows generalizing db with
  | nil => simp [insertRecords]
  | cons r rs ih =>
      rw [insertRecords, ih]
      simp [insertRecord, recordKeys]

theorem insertRecords_mem (db : DB) (jid vid : Nat) (rows : List InRow)
    (r : RecordRow) (hr : r ∈ db.records) : r ∈ (insertRecords db jid vid rows).records := by
  induction rows generalizing db with
  | nil => exact hr
  | cons x xs ih =>
      apply ih
      simp [insertRecord, hr]

theorem insertRecords_recordsOf_ne (db : DB) (jid vid w : Nat) (rows : List InRow)
    (hw : w ≠ vid) :
    recordsOfVersion (insertRecords db jid vid rows) w = recordsOfVersion db w := by
  induction rows generalizing db with
  | nil => rfl
  | cons r rs ih =>
      rw [insertRecords, ih]
      simp [insertRecord, recordsOfVersion, List.filter_append]
      intro h
      exact absurd h.symm hw

theorem insertRecords_recordsOf_proj (db : DB) (jid vid : Nat) (rows : List InRow) :
    (recordsOfVersion (insertRecords db jid vid rows) vid).map
        (fun r => (r.row_idx, r.payload_json)) =
      (recordsOfVersion db vid).map (fun r => (r.row_idx, r.payload_json)) ++
        rows.map (fun r => (inRowIdx r, r.data)) := by
  induction rows generalizing db with
  | nil => simp [insertRecords]
  | cons r rs ih =>
      rw [insertRecords, ih]
      simp [insertRecord, recordsOfVersion, List.filter_append]

theorem insertIssuesV_emails (db : DB) (vid : Nat) (l : List InIssue) :
    (Versioner.insertIssuesV db vid l).emails = db.emails := by
  induction l generalizing db with
  | nil => rfl
  | cons i is' ih => simp [Versioner.insertIssuesV, ih]

theorem insertIssuesV_jobs (db : DB) (vid : Nat) (l : List InIssue) :
    (Versioner.insertIssuesV db vid l).jobs = db.jobs := by
  induction l generalizing db with
  | nil => rfl
  | cons i is' ih => simp [Versioner.insertIssuesV, ih]

theorem insertIssuesV_versions (db : DB) (vid : Nat) (l : List InIssue) :
    (Versioner.insertIssuesV db vid l).versions = db.versions := by
  induction l generalizing db with
  | nil => rfl
  | cons i is' ih => simp [Versioner.insertIssuesV, ih]

theorem insertIssuesV_records (db : DB) (vid : Nat) (l : List InIssue) :
    (Versioner.insertIssuesV db vid l).records = db.records := by
  induction l generalizing db with
  | nil => rfl
  | cons i is' ih => simp [Versioner.insertIssuesV, ih]

theorem insertIssuesV_exports (db : DB) (vid : Nat) (l : List InIssue) :
    (Versioner.insertIssuesV db vid l).exports = db.exports := by
  induction l generalizing db with
  | nil => rfl
  | cons i is' ih => simp [Versioner.insertIssuesV, ih]

theorem insertIssuesV_mem (db : DB) (vid : Nat) (l : List InIssue)
    (i : IssueRow) (hi : i ∈ db.issues) : i ∈ (Versioner.insertIssuesV db vid l).issues := by
  induction l generalizing db with
  | nil => exact hi
  | cons x xs ih =>
      apply ih
      simp [hi]

theorem insertIssuesV_issuesOf_ne (db : DB) (vid w : Nat) (l : List InIssue)
    (hw : w ≠ vid) :
    issuesOfVersion (Versioner.insertIssuesV db vid l) w = issuesOfVersion db w := by
  induction l generalizing db with
  | nil => rfl
  | cons i is' ih =>
      rw [Versioner.insertIssuesV, ih]
      simp [issuesOfVersion, List.filter_append]
      intro h
      exact absurd h.symm hw

theorem insertIssuesP_emails (db : DB) (vid : Nat) (l : List InIssue) :
    (Orchestrator.insertIssuesP db vid l).emails = db.emails := by
  induction l generalizing db with
  | nil => rfl
  | cons i is' ih => simp [Orchestrator.insertIssuesP, ih]

theorem insertIssuesP_jobs (db : DB) (vid : Nat) (l : List InIssue) :
    (Orchestrator.insertIssuesP db vid l).jobs = db.jobs := by
  induction l generalizing db with
  | nil => rfl
  | cons i is' ih => simp [Orchestrator.insertIssuesP, ih]

theorem insertIssuesP_versions (db : DB) (vid : Nat) (l : List InIssue) :
    (Orchestrator.insertIssuesP db vid l).versions = db.versions := by
  induction l generalizing db with
  | nil => rfl
  | cons i is' ih => simp [Orchestrator.insertIssuesP, ih]

theorem insertIssuesP_records (db : DB) (vid : Nat) (l : List InIssue) :
    (Orchestrator.insertIssuesP db vid l).records = db.records := by
  induction l generalizing db with
  | nil => rfl
  | cons i is' ih => simp [Orchestrator.insertIssuesP, ih]

theorem insertIssuesP_exports (db : DB) (vid : Nat) (l : List InIssue) :
    (Orchestrator.insertIssuesP db vid l).exports = db.exports := by
  induction l generalizing db with
  | nil => rfl
  | cons i is' ih => simp [Orchestrator.insertIssuesP, ih]

theorem issuesOfVersion_eq_nil_of_fresh (db : DB) (vid : Nat)
    (h : ∀ i ∈ db.issues, i.version_id ≠ vid) : issuesOfVersion db vid = [] := by
  simp only [issuesOfVersion, List.filter_eq_nil_iff]
  intro i hi
  simpa using h i hi

theorem insertIssuesP_issuesOf_proj (db : DB) (vid : Nat) (l : List InIssue) :
    (issuesOfVersion (Orchestrator.insertIssuesP db vid l) vid).map
        (fun i => (i.row_idx, i.field, i.level, i.message)) =
      (issuesOfVersion db vid).map (fun i => (i.row_idx, i.field, i.level, i.message)) ++
        l.map (fun i => (i.row_idx, i.field, i.level, i.message)) := by
  induction l generalizing db with
  | nil => simp [Orchestrator.insertIssuesP]
  | cons i is' ih =>
      rw [Orchestrator.insertIssuesP, ih]
      simp [issuesOfVersion, List.filter_append]

theorem insertIssuesP_issuesOf_ne (db : DB) (vid w : Nat) (l : List InIssue)
    (hw : w ≠ vid) :
    issuesOfVersion (Orchestrator.insertIssuesP db vid l) w =
      issuesOfVersion db w := by
  induction l generalizing db with
  | nil => rfl
  | cons i is' ih =>
      rw [Orchestrator.insertIssuesP, ih]
      simp [issuesOfVersion, List.filter_append]
      intro h
      exact absurd h.symm hw

theorem insertIssuesP_mem (db : DB) (vid : Nat) (l : List InIssue)
    (i : IssueRow) (hi : i ∈ db.issues) :
    i ∈ (Orchestrator.insertIssuesP db vid l).issues := by
  induction l generalizing db with
  | nil => exact hi
  | cons x xs ih =>
      apply ih
      simp [hi]

theorem updateJobRow_emails (db : DB) (jid : Nat) (f : JobRow → JobRow) :
    (updateJobRow db jid f).emails = db.emails := rfl

theorem updateJobRow_versions (db : DB) (jid : Nat) (f : JobRow → JobRow) :
    (updateJobRow db jid f).versions = db.versions := rfl

theorem updateJobRow_records (db : DB) (jid : Nat) (f : JobRow → JobRow) :
    (updateJobRow db jid f).records = db.records := rfl

theorem updateJobRow_issues (db : DB) (jid : Nat) (f : JobRow → JobRow) :
    (updateJobRow db jid f).issues = db.issues := rfl

theorem updateJobRow_exports (db : DB) (jid : Nat) (f : JobRow → JobRow) :
    (updateJobRow db jid f).exports = db.exports := rfl

theorem findJob_updateJobRow (db : DB) (jid : Nat) (f : JobRow → JobRow)
    (hf : ∀ j, (f j).id = j.id) :
    findJob (updateJobRow db jid f) jid = (findJob db jid).map f := by
  simp only [findJob, updateJobRow]
  induction db.jobs with
  | nil => rfl
  | cons j js ih =>
      by_cases h : j.id = jid
      · simp [List.find?_cons, h, hf]
      · have hb : (j.id == jid) = false := by simpa using h
        simp only [List.map_cons, List.find?_cons, hb, if_neg h]
        simpa [hb] using ih

theorem currentVersionOf_eq_of_jobs_eq (db1 db2 : DB) (jid : Nat)
    (h : db1.jobs = db2.jobs) : currentVersionOf db1 jid = currentVersionOf db2 jid := by
  simp [currentVersionOf, findJob, h]

theorem finish_records (failAt : Option Versioner.Step) (db : DB) (jid vid : Nat)
    (st : Versioner.AgentState) :
    (Versioner.finish failAt db jid vid st).db.records = db.records := by
  unfold Versioner.finish
  split <;> rfl

theorem finish_versions (failAt : Option Versioner.Step) (db : DB) (jid vid : Nat)
    (st : Versioner.AgentState) :
    (Versioner.finish failAt db jid vid st).db.versions = db.versions := by
  unfold Versioner.finish
  split <;> rfl

theorem finish_jobs (failAt : Option Versioner.Step) (db : DB) (jid vid : Nat)
    (st : Versioner.AgentState) :
    (Versioner.finish failAt db jid vid st).db.jobs = db.jobs := by
  unfold Versioner.finish
  split <;> rfl

theorem finish_exports (failAt : Option Versioner.Step) (db : DB) (jid vid : Nat)
    (st : Versioner.AgentState) :
    (Versioner.finish failAt db jid vid st).db.exports = db.exports := by
  unfold Versioner.finish
  split <;> rfl

theorem finish_issues (failAt : Option Versioner.Step) (db : DB) (jid vid : Nat)
    (st : Versioner.AgentState) :
    (Versioner.finish failAt db jid vid st).db.issues = db.issues := by
  unfold Versioner.finish
  split <;> rfl

theorem recordKeysUnique_of_records_eq (db1 db2 : DB) (h : db1.records = db2.records)
    (hU : RecordKeysUnique db2) : RecordKeysUnique db1 := by
  unfold RecordKeysUnique recordKeys
  rw [h]
  exact hU

theorem recordKeysUnique_insertRecords (db : DB) (jid vid : Nat) (rows : List InRow)
    (hU : RecordKeysUnique db)
    (hfresh : ∀ r ∈ db.records, r.version_id ≠ vid)
    (hdup : dupFree (rows.map inRowIdx) = true) :
    RecordKeysUnique (insertRecords db jid vid rows) := by
  unfold RecordKeysUnique
  rw [insertRecords_keys]
  rw [List.nodup_append]
  refine ⟨hU, ?_, ?_⟩
  · have : rows.map (fun r => (vid, inRowIdx r)) = (rows.map inRowIdx).map (fun i => (vid, i)) := by
      simp [List.map_map]
    rw [this]
    refine List.Nodup.map ?_ ((dupFree_eq_true_iff_nodup _).mp hdup)
    intro a b hab
    simpa using hab
  · intro a ha hb
    rcases List.mem_map.mp ha with ⟨q, hq, rfl⟩
    rcases List.mem_map.mp hb with ⟨r, hr, heq⟩
    have : q.version_id = vid := by
      have := congrArg Prod.fst heq
      simpa using this.symm
    exact hfresh q hq this

theorem recordsOfVersion_congr (db1 db2 : DB) (w : Nat) (h : db1.records = db2.records) :
    recordsOfVersion db1 w = recordsOfVersion db2 w := by
  unfold recordsOfVersion
  rw [h]

theorem issuesOfVersion_congr (db1 db2 : DB) (w : Nat) (h : db1.issues = db2.issues) :
    issuesOfVersion db1 w = issuesOfVersion db2 w := by
  unfold issuesOfVersion
  rw [h]

theorem copyRecords_jobs (db : DB) (jid vid tid ridx : Nat) (f v : String)
    (l : List RecordRow) :
    (MainApi.copyRecords db jid vid tid ridx f v l).jobs = db.jobs := by
  induction l generalizing db with
  | nil => rfl
  | cons r rs ih => simp [MainApi.copyRecords, ih, insertRecord]

theorem copyRecords_versions (db : DB) (jid vid tid ridx : Nat) (f v : String)
    (l : List RecordRow) :
    (MainApi.copyRecords db jid vid tid ridx f v l).versions = db.versions := by
  induction l generalizing db with
  | nil => rfl
  | cons r rs ih => simp [MainApi.copyRecords, ih, insertRecord]

theorem copyRecords_issues (db : DB) (jid vid tid ridx : Nat) (f v : String)
    (l : List RecordRow) :
    (MainApi.copyRecords db jid vid tid ridx f v l).issues = db.issues := by
  induction l generalizing db with
  | nil => rfl
  | cons r rs ih => simp [MainApi.copyRecords, ih, insertRecord]

theorem copyRecords_exports (db : DB) (jid vid tid ridx : Nat) (f v : String)
    (l : List RecordRow) :
    (MainApi.copyRecords db jid vid tid ridx f v l).exports = db.exports := by
  induction l generalizing db with
  | nil => rfl
  | cons r rs ih => simp [MainApi.copyRecords, ih, insertRecord]

theorem copyRecords_recordsOf_ne (db : DB) (jid vid tid ridx : Nat) (f v : String)
    (l : List RecordRow) (w : Nat) (hw : w ≠ vid) :
    recordsOfVersion (MainApi.copyRecords db jid vid tid ridx f v l) w =
      recordsOfVersion db w := by
  induction l generalizing db with
  | nil => rfl
  | cons r rs ih =>
      rw [MainApi.copyRecords, ih]
      simp [insertRecord, recordsOfVersion, List.filter_append]
      intro h
      exact absurd h.symm hw

theorem copyRecords_mem (db : DB) (jid vid tid ridx : Nat) (f v : String)
    (l : List RecordRow) (r : RecordRow) (hr : r ∈ db.records) :
    r ∈ (MainApi.copyRecords db jid vid tid ridx f v l).records := by
  induction l generalizing db with
  | nil => exact hr
  | cons x xs ih =>
      apply ih
      simp [insertRecord, hr]

theorem insertIssuesE_jobs (db : DB) (vid : Nat) (l : List InIssue) :
    (MainApi.insertIssuesE db vid l).jobs = db.jobs := by
  induction l generalizing db with
  | nil => rfl
  | cons i is' ih => simp [MainApi.insertIssuesE, ih]

theorem insertIssuesE_versions (db : DB) (vid : Nat) (l : List InIssue) :
    (MainApi.insertIssuesE db vid l).versions = db.versions := by
  induction l generalizing db with
  | nil => rfl
  | cons i is' ih => simp [MainApi.insertIssuesE, ih]

theorem insertIssuesE_records (db : DB) (vid : Nat) (l : List InIssue) :
    (MainApi.insertIssuesE db vid l).records = db.records := by
  induction l generalizing db with
  | nil => rfl
  | cons i is' ih => simp [MainApi.insertIssuesE, ih]

theorem insertIssuesE_exports (db : DB) (vid : Nat) (l : List InIssue) :
    (MainApi.insertIssuesE db vid l).exports = db.exports := by
  induction l generalizing db with
  | nil => rfl
  | cons i is' ih => simp [MainApi.insertIssuesE, ih]

theorem insertIssuesE_issuesOf_ne (db : DB) (vid w : Nat) (l : List InIssue)
    (hw : w ≠ vid) :
    issuesOfVersion (MainApi.insertIssuesE db vid l) w = issuesOfVersion db w := by
  induction l generalizing db with
  | nil => rfl
  | cons i is' ih =>
      rw [MainApi.insertIssuesE, ih]
      simp [issuesOfVersion, List.filter_append]
      intro h
      exact absurd h.symm hw

theorem insertIssuesE_mem (db : DB) (vid : Nat) (l : List InIssue)
    (i : IssueRow) (hi : i ∈ db.issues) : i ∈ (MainApi.insertIssuesE db vid l).issues := by
  induction l generalizing db with
  | nil => exact hi
  | cons x xs ih =>
      apply ih
      simp [hi]

theorem findJob_congr (db1 db2 : DB) (jid : Nat) (h : db1.jobs = db2.jobs) :
    findJob db1 jid = findJob db2 jid := by
  unfold findJob
  rw [h]

theorem mem_append_parent (dbv : List VersionRow) (q v : VersionRow)
    (hv : v ∈ dbv ++ [q]) : v ∈ dbv ∨ v.parent_version_id = q.parent_version_id := by
  rcases List.mem_append.mp hv with h | h
  · exact Or.inl h
  · simp only [List.mem_singleton] at h
    subst h
    exact Or.inr rfl

theorem versioner_run_versions_mem (failAt : Option Versioner.Step) (db : DB)
    (st : Versioner.AgentState) :
    ∀ v ∈ (Versioner.run failAt db st).db.versions,
      v ∈ db.versions ∨ v.parent_version_id = st.parent_version_id := by
  intro v hv
  unfold Versioner.run at hv
  repeat'
    first
    | split at hv
    | simp only [apply_ite (fun (o : Versioner.Outcome) => o.db.versions),
        finish_versions, updateJobRow_versions, insertIssuesV_versions,
        insertRecords_versions] at hv
  all_goals
    first
    | exact Or.inl hv
    | exact mem_append_parent _ _ _ hv

theorem version_node_fst_versions_mem (db : DB) (s : Orchestrator.PState) :
    ∀ v ∈ (Orchestrator.version_node db s).1.versions,
      v ∈ db.versions ∨ v.parent_version_id = none := by
  intro v hv
  unfold Orchestrator.version_node at hv
  dsimp only at hv
  split at hv <;> exact versioner_run_versions_mem _ _ _ v hv

theorem export_node_fst (db : DB) (s : Orchestrator.PState) :
    (Orchestrator.export_node db s).1 = db := by
  simp [Orchestrator.export_node, Orchestrator.exporter_run]

theorem graphExec_fst_versions_mem (o : Orchestrator.AgentsOutcome) (db : DB)
    (s0 : Orchestrator.PState) :
    ∀ v ∈ (Orchestrator.graphExec o db s0).1.versions,
      v ∈ db.versions ∨ v.parent_version_id = none := by
  intro v hv
  unfold Orchestrator.graphExec at hv
  dsimp only at hv
  split at hv
  · split at hv
    · rw [export_node_fst] at hv
      exact version_node_fst_versions_mem _ _ v hv
    · exact Or.inl hv
  · split at hv
    · rw [export_node_fst] at hv
      exact version_node_fst_versions_mem _ _ v hv
    · exact Or.inl hv

theorem persist_versions_mem (db : DB) (s : Orchestrator.PState) (db2 : DB)
    (h : Orchestrator.persist_graph_results db s = some db2) :
    ∀ v ∈ db2.versions, v ∈ db.versions ∨ v.parent_version_id = none := by
  intro v hv
  unfold Orchestrator.persist_graph_results Orchestrator.persistWith at h
  repeat' split at h
  all_goals cases h
  all_goals
    try simp only [updateJobRow_versions, insertIssuesP_versions,
      insertRecords_versions] at hv
  all_goals
    first
    | exact Or.inl hv
    | exact mem_append_parent _ _ _ hv

theorem editApply_recordsOf_ne (db : DB) (jid ridx : Nat) (f value : String) (cur : Nat)
    (target : RecordRow) (w : Nat) (hw : w ≠ db.nextVersionId) :
    recordsOfVersion (MainApi.editApply db jid ridx f value cur target) w =
      recordsOfVersion db w := by
  unfold MainApi.editApply
  rw [recordsOfVersion_congr _ _ w (insertIssuesE_records _ _ _)]
  rw [recordsOfVersion_congr _ _ w (updateJobRow_records _ _ _)]
  rw [copyRecords_recordsOf_ne _ _ _ _ _ _ _ _ _ hw]
  rfl

theorem editApply_issuesOf_ne (db : DB) (jid ridx : Nat) (f value : String) (cur : Nat)
    (target : RecordRow) (w : Nat) (hw : w ≠ db.nextVersionId) :
    issuesOfVersion (MainApi.editApply db jid ridx f value cur target) w =
      issuesOfVersion db w := by
  unfold MainApi.editApply
  rw [insertIssuesE_issuesOf_ne _ _ _ _ hw]
  rw [issuesOfVersion_congr _ _ w (updateJobRow_issues _ _ _)]
  rw [issuesOfVersion_congr _ _ w (copyRecords_issues _ _ _ _ _ _ _ _)]
  rfl

theorem editApply_versions (db : DB) (jid ridx : Nat) (f value : String) (cur : Nat)
    (target : RecordRow) :
    (MainApi.editApply db jid ridx f value cur target).versions =
      db.versions ++ [⟨db.nextVersionId, jid, some cur, "user", "Edit field in row"⟩] := by
  unfold MainApi.editApply
  rw [insertIssuesE_versions, updateJobRow_versions, copyRecords_versions]
  rfl

theorem graphExec_gate_stops (o : Orchestrator.AgentsOutcome) (db : DB) (jid : Nat)
    (h1 : o.intakeErr = none) (h2 : o.classifyErr = none) (h3 : o.extractErr = none)
    (h4 : o.vlmErr = none) (h5 : o.normErr = none) (h6 : o.valErr = none)
    (hec : 0 < o.valErrorCount) :
    Orchestrator.graphExec o db { job_id := jid, status := Orchestrator.PStatus.processing } =
      (db, Orchestrator.stateAfterValidate o jid, Orchestrator.gateTrace o) := by
  unfold Orchestrator.graphExec Orchestrator.stateAfterValidate Orchestrator.gateTrace
    Orchestrator.routedRows
  simp only [Orchestrator.intake_node, Orchestrator.classify_node, Orchestrator.extract_node,
    Orchestrator.vlm_assist_node, Orchestrator.normalize_node, Orchestrator.validate_node,
    Orchestrator.should_use_vlm, Orchestrator.should_continue_after_validate,
    h1, h2, h3, h4, h5, h6]
  cases hb : o.requires_vlm with
  | false => simp [hb, gt_iff_lt, hec]
  | true =>
      by_cases hvl : o.vlmRows = [] <;>
        simp [hb, hvl, gt_iff_lt, hec]

theorem persistWith_fresh (db1 : DB) (s : Orchestrator.PState) (jst : JobStatus)
    (vid : Nat) (j : JobRow)
    (hjob : findJob db1 s.job_id = some j)
    (hSome : s.rows.all (fun r => r.row_idx.isSome) = true)
    (hDup : dupFree (s.rows.map inRowIdx) = true)
    (hfreshR : ∀ r ∈ db1.records, r.version_id ≠ vid)
    (hfreshI : ∀ i ∈ db1.issues, i.version_id ≠ vid) :
    ∃ db2, Orchestrator.persistWith db1 s jst vid = some db2 ∧
      db2.versions = db1.versions ∧
      db2.exports = db1.exports ∧
      (recordsOfVersion db2 vid).map (fun r => (r.row_idx, r.payload_json)) =
        s.rows.map (fun r => (inRowIdx r, r.data)) ∧
      (issuesOfVersion db2 vid).map (fun i => (i.row_idx, i.field, i.level, i.message)) =
        s.issues.map (fun i => (i.row_idx, i.field, i.level, i.message)) ∧
      findJob db2 s.job_id = some { j with status := jst, current_version_id := some vid } := by
  have hAny : s.rows.any (fun r => r.row_idx.isNone) = false := by
    rw [List.any_eq_false]
    intro r hr
    have hs := List.all_eq_true.mp hSome r hr
    simp only [Option.isNone_iff_eq_none]
    intro hnone
    rw [hnone] at hs
    cases hs
  have hOk : recordsInsertOk db1 vid (s.rows.map inRowIdx) = true := by
    rw [recordsInsertOk_of_fresh _ _ _ hfreshR]
    exact hDup
  refine ⟨updateJobRow
      (Orchestrator.insertIssuesP (insertRecords db1 s.job_id vid s.rows) vid s.issues)
      s.job_id (fun q => { q with status := jst, current_version_id := some vid }),
    ?_, ?_, ?_, ?_, ?_, ?_⟩
  · simp only [Orchestrator.persistWith, hAny, hOk]
    simp
  · rw [updateJobRow_versions, insertIssuesP_versions, insertRecords_versions]
  · rw [updateJobRow_exports, insertIssuesP_exports, insertRecords_exports]
  · rw [recordsOfVersion_congr _ _ vid (updateJobRow_records _ _ _)]
    rw [recordsOfVersion_congr _ _ vid (insertIssuesP_records _ _ _)]
    rw [insertRecords_recordsOf_proj]
    rw [recordsOfVersion_eq_nil_of_fresh _ _ hfreshR]
    simp
  · rw [issuesOfVersion_congr _ _ vid (updateJobRow_issues _ _ _)]
    rw [insertIssuesP_issuesOf_proj]
    rw [issuesOfVersion_congr _ _ vid (insertRecords_issues _ _ _ _)]
    rw [issuesOfVersion_eq_nil_of_fresh _ _ hfreshI]
    simp
  · rw [findJob_updateJobRow _ s.job_id
      (fun q => { q with status := jst, current_version_id := some vid }) (fun q => rfl)]
    rw [findJob_congr _ _ _ (insertIssuesP_jobs _ _ _)]
    rw [findJob_congr _ _ _ (insertRecords_jobs _ _ _ _)]
    rw [hjob]
    rfl

theorem editApply_findJob (db : DB) (jid ridx : Nat) (f value : String) (cur : Nat)
    (target : RecordRow) :
    findJob (MainApi.editApply db jid ridx f value cur target) jid =
      (findJob db jid).map (fun j => { j with current_version_id := some db.nextVersionId }) := by
  unfold MainApi.editApply
  rw [findJob_congr _ _ jid (insertIssuesE_jobs _ _ _)]
  rw [findJob_updateJobRow _ jid
    (fun j => { j with current_version_id := some db.nextVersionId }) (fun j => rfl)]
  rw [findJob_congr _ _ jid (copyRecords_jobs _ _ _ _ _ _ _ _)]
  rfl

end Lemmas

section ClaimC1

/-- Claim C1 (as amended): the versioner's Commit is not one transaction but
five, one per internal step, each committing on its own.  For a Commit call
that fails at injected step `k`: the call reports an error; the Job's
`current_version_id` is unchanged for a failure at any step before the audit
insert; a failure at the very first step leaves the store untouched; but for
a failure at any later step the Version row inserted by the first step
remains visible (only the failing step's own session rolls back). -/
theorem commit_failure_step_effects (db : DB) (st : Versioner.AgentState) (jid : Nat)
    (step : Versioner.Step)
    (hjid : st.job_id = some jid)
    (hfresh : ∀ r ∈ db.records, r.version_id ≠ db.nextVersionId)
    (hrows : dupFree (st.rows.map inRowIdx) = true) :
    (Versioner.run (some step) db st).error.isSome = true ∧
    (step ≠ Versioner.Step.auditLog →
      currentVersionOf (Versioner.run (some step) db st).db jid = currentVersionOf db jid) ∧
    (step = Versioner.Step.createVersion → (Versioner.run (some step) db st).db = db) ∧
    (step ≠ Versioner.Step.createVersion →
      (Versioner.run (some step) db st).db.versions =
        db.versions ++ [⟨db.nextVersionId, jid, st.parent_version_id, st.author, st.reason⟩]) := by
  have hOk : recordsInsertOk
      { db with
        versions := db.versions ++ [⟨db.nextVersionId, jid, st.parent_version_id, st.author, st.reason⟩],
        nextVersionId := db.nextVersionId + 1 }
      db.nextVersionId (st.rows.map inRowIdx) = true := by
    rw [recordsInsertOk_of_fresh]
    · exact hrows
    · intro r hr
      exact hfresh r hr
  cases step with
  | createVersion =>
      simp [Versioner.run, hjid]
  | storeRecords =>
      refine ⟨?_, ?_, by simp, ?_⟩ <;> simp [Versioner.run, hjid, currentVersionOf, findJob]
  | storeIssues =>
      refine ⟨?_, ?_, by simp, ?_⟩ <;>
        simp [Versioner.run, hjid, hOk, currentVersionOf, findJob,
          insertRecords_jobs, insertRecords_versions]
  | updateJob =>
      refine ⟨?_, ?_, by simp, ?_⟩ <;>
        simp [Versioner.run, hjid, hOk, currentVersionOf, findJob,
          insertRecords_jobs, insertRecords_versions, insertIssuesV_jobs, insertIssuesV_versions]
  | auditLog =>
      refine ⟨?_, by simp, by simp, ?_⟩
      · simp [Versioner.run, hjid, hOk, Versioner.finish]
        split
        · simp
        · split <;> simp
      · simp [Versioner.run, hjid, hOk, Versioner.finish]
        split
        · simp [insertRecords_versions, insertIssuesV_versions]
        · split <;>
            simp [insertRecords_versions, insertIssuesV_versions, updateJobRow_versions]

/-- Witness for `commit_failure_step_effects` at a concrete store and input. -/
theorem commit_failure_step_effects_witness :
    (Versioner.run (some Versioner.Step.storeIssues) dbJob1 stRows).error.isSome = true ∧
    currentVersionOf (Versioner.run (some Versioner.Step.storeIssues) dbJob1 stRows).db 1 =
      currentVersionOf dbJob1 1 ∧
    (Versioner.run (some Versioner.Step.storeIssues) dbJob1 stRows).db.versions =
      dbJob1.versions ++ [⟨dbJob1.nextVersionId, 1, none, "system", "auto extract"⟩] := by
  have h := commit_failure_step_effects dbJob1 stRows 1 Versioner.Step.storeIssues
    (by decide) (by decide) (by decide)
  exact ⟨h.1, h.2.1 (by decide), h.2.2.2 (by decide)⟩

/-- Claim C1 counterexample: a Commit interrupted between the record insert
and the issue insert (the interruption point named by P1) reports an error,
leaves the Job pointer unchanged — but a partially committed Version IS
visible afterwards, contradicting the all-or-nothing guarantee. -/
theorem commit_interrupted_partial_version_cex :
    (Versioner.run (some Versioner.Step.storeIssues) dbJob1 stRows).error.isSome = true ∧
    currentVersionOf (Versioner.run (some Versioner.Step.storeIssues) dbJob1 stRows).db 1 = none ∧
    (Versioner.run (some Versioner.Step.storeIssues) dbJob1 stRows).db.versions ≠ dbJob1.versions ∧
    recordsOfVersion (Versioner.run (some Versioner.Step.storeIssues) dbJob1 stRows).db 1 ≠
      recordsOfVersion dbJob1 1 := by
  decide

end ClaimC1

section ClaimC6

/-- Claim C6 (as amended): the `(version_id, row_idx)` UNIQUE constraint is an
invariant preserved by every Commit (with or without an injected step
failure), and a Commit whose input rows would collide on `(version_id,
row_idx)` commits no Record and reports failure — but it does not commit
nothing: the Version row inserted by the preceding step remains, with the Job
pointer unchanged. -/
theorem record_uniqueness_amended (db : DB) (st : Versioner.AgentState) (jid : Nat)
    (failAt : Option Versioner.Step)
    (hjid : st.job_id = some jid)
    (hfresh : ∀ r ∈ db.records, r.version_id ≠ db.nextVersionId)
    (hU : RecordKeysUnique db) :
    RecordKeysUnique (Versioner.run failAt db st).db ∧
    (dupFree (st.rows.map inRowIdx) = false →
      (Versioner.run none db st).error.isSome = true ∧
      (Versioner.run none db st).db.records = db.records ∧
      (Versioner.run none db st).db.versions =
        db.versions ++ [⟨db.nextVersionId, jid, st.parent_version_id, st.author, st.reason⟩] ∧
      currentVersionOf (Versioner.run none db st).db jid = currentVersionOf db jid) := by
  constructor
  · simp only [Versioner.run, hjid]
    split
    · exact hU
    · split
      · exact hU
      · rename_i hcond
        have hOk : recordsInsertOk
            { db with
              versions := db.versions ++
                [⟨db.nextVersionId, jid, st.parent_version_id, st.author, st.reason⟩],
              nextVersionId := db.nextVersionId + 1 }
            db.nextVersionId (st.rows.map inRowIdx) = true := by
          by_contra hne
          exact hcond (Or.inr (by simpa using hne))
        have hdup : dupFree (st.rows.map inRowIdx) = true := by
          rw [recordsInsertOk_of_fresh] at hOk
          · exact hOk
          · intro r hr
            exact hfresh r hr
        have hU2 : RecordKeysUnique
            (insertRecords
              { db with
                versions := db.versions ++
                  [⟨db.nextVersionId, jid, st.parent_version_id, st.author, st.reason⟩],
                nextVersionId := db.nextVersionId + 1 }
              jid db.nextVersionId st.rows) := by
          refine recordKeysUnique_insertRecords _ jid db.nextVersionId st.rows ?_ ?_ hdup
          · exact hU
          · intro r hr
            exact hfresh r hr
        split
        · exact hU2
        · have hU3 : RecordKeysUnique
              (Versioner.insertIssuesV
                (insertRecords
                  { db with
                    versions := db.versions ++
                      [⟨db.nextVersionId, jid, st.parent_version_id, st.author, st.reason⟩],
                    nextVersionId := db.nextVersionId + 1 }
                  jid db.nextVersionId st.rows)
                db.nextVersionId st.validation_issues) := by
            refine recordKeysUnique_of_records_eq _ _ ?_ hU2
            exact insertIssuesV_records _ _ _
          split
          · exact hU3
          · split
            · exact recordKeysUnique_of_records_eq _ _ (finish_records _ _ _ _ _) hU3
            · split
              · refine recordKeysUnique_of_records_eq _ _ ?_ hU3
                rw [finish_records, updateJobRow_records]
              · exact hU3
  · intro hdup
    have hBad : recordsInsertOk
        { db with
          versions := db.versions ++
            [⟨db.nextVersionId, jid, st.parent_version_id, st.author, st.reason⟩],
          nextVersionId := db.nextVersionId + 1 }
        db.nextVersionId (st.rows.map inRowIdx) = false := by
      rw [recordsInsertOk_of_fresh]
      · exact hdup
      · intro r hr
        exact hfresh r hr
    refine ⟨?_, ?_, ?_, ?_⟩ <;>
      simp [Versioner.run, hjid, hBad, currentVersionOf, findJob]

/-- Witness for `record_uniqueness_amended` at a concrete store and duplicate
input rows. -/
theorem record_uniqueness_amended_witness :
    RecordKeysUnique (Versioner.run none dbJob1 stDup).db ∧
    (Versioner.run none dbJob1 stDup).error.isSome = true ∧
    (Versioner.run none dbJob1 stDup).db.records = dbJob1.records := by
  have h := record_uniqueness_amended dbJob1 stDup 1 none (by decide) (by decide)
    (by decide)
  have h2 := h.2 (by decide)
  exact ⟨h.1, h2.1, h2.2.1⟩

/-- Claim C6 counterexample: a Commit whose two input rows both default to
`row_idx = 0` fails the record bulk-insert (no Record committed) yet the
store is not unchanged — the new Version row remains, so the Commit did not
fail "committing nothing". -/
theorem duplicate_rows_commit_leaves_version_cex :
    (Versioner.run none dbJob1 stDup).error.isSome = true ∧
    (Versioner.run none dbJob1 stDup).db.records = dbJob1.records ∧
    (Versioner.run none dbJob1 stDup).db ≠ dbJob1 ∧
    (Versioner.run none dbJob1 stDup).db.versions =
      dbJob1.versions ++ [⟨1, 1, none, "system", "auto extract"⟩] := by
  decide

end ClaimC6

section ClaimC3

/-- Claim C3: Version immutability.  The inline edit never changes the stored
Record or Issue set of any already-committed Version (the in-place dict
mutation of the plain JSON column is never flushed): every committed
version's record and issue sets read back unchanged, every Version row
survives, and a successful edit expresses the correction as a new Version
whose `parent_version_id` is the old current version and which becomes the
new current version.  Rollback likewise deletes and mutates no Version,
Record or Issue. -/
theorem version_immutability (db : DB) (jid ridx : Nat) (f v : String)
    (hfreshV : ∀ w ∈ db.versions, w.id ≠ db.nextVersionId) :
    (∀ w ∈ db.versions,
      recordsOfVersion (MainApi.ui_edit_record db jid ridx f v).1 w.id =
        recordsOfVersion db w.id ∧
      issuesOfVersion (MainApi.ui_edit_record db jid ridx f v).1 w.id =
        issuesOfVersion db w.id ∧
      w ∈ (MainApi.ui_edit_record db jid ridx f v).1.versions) ∧
    ((MainApi.ui_edit_record db jid ridx f v).2 = true →
      ∃ cur, currentVersionOf db jid = some cur ∧
        (⟨db.nextVersionId, jid, some cur, "user", "Edit field in row"⟩ : VersionRow) ∈
          (MainApi.ui_edit_record db jid ridx f v).1.versions ∧
        currentVersionOf (MainApi.ui_edit_record db jid ridx f v).1 jid =
          some db.nextVersionId) ∧
    (∀ jid2 vid2,
      (MainApi.rollback_to_version db jid2 vid2).1.versions = db.versions ∧
      (MainApi.rollback_to_version db jid2 vid2).1.records = db.records ∧
      (MainApi.rollback_to_version db jid2 vid2).1.issues = db.issues) := by
  refine ⟨?_, ?_, ?_⟩
  · intro w hw
    simp only [MainApi.ui_edit_record]
    cases hjob : findJob db jid with
    | none => simp only [hjob]; exact ⟨trivial, trivial, hw⟩
    | some job =>
      cases hcur : job.current_version_id with
      | none => simp only [hjob, hcur]; exact ⟨trivial, trivial, hw⟩
      | some cur =>
        simp only [hjob, hcur]
        cases htgt : (MainApi.orderByRowIdx (recordsOfVersion db cur)).find?
            (fun r => r.row_idx == ridx) with
        | none => simp only [htgt]; exact ⟨trivial, trivial, hw⟩
        | some target =>
          simp only [htgt]
          by_cases hok : recordsInsertOk (MainApi.editBase db jid cur) db.nextVersionId
              ((MainApi.orderByRowIdx (recordsOfVersion db cur)).map (fun r => r.row_idx)) = false
          · rw [if_pos hok]
            exact ⟨rfl, rfl, hw⟩
          · rw [if_neg hok]
            refine ⟨?_, ?_, ?_⟩
            · exact editApply_recordsOf_ne _ _ _ _ _ _ _ _ (hfreshV w hw)
            · exact editApply_issuesOf_ne _ _ _ _ _ _ _ _ (hfreshV w hw)
            · rw [show (MainApi.editApply db jid ridx f v.trim cur target, true).1 =
                  MainApi.editApply db jid ridx f v.trim cur target from rfl]
              rw [editApply_versions]
              exact List.mem_append_left _ hw
  · simp only [MainApi.ui_edit_record]
    cases hjob : findJob db jid with
    | none => simp only [hjob]; intro h; cases h
    | some job =>
      cases hcur : job.current_version_id with
      | none => simp only [hjob, hcur]; intro h; cases h
      | some cur =>
        simp only [hjob, hcur]
        cases htgt : (MainApi.orderByRowIdx (recordsOfVersion db cur)).find?
            (fun r => r.row_idx == ridx) with
        | none => simp only [htgt]; intro h; cases h
        | some target =>
          simp only [htgt]
          by_cases hok : recordsInsertOk (MainApi.editBase db jid cur) db.nextVersionId
              ((MainApi.orderByRowIdx (recordsOfVersion db cur)).map (fun r => r.row_idx)) = false
          · rw [if_pos hok]
            intro h
            cases h
          · rw [if_neg hok]
            intro _
            refine ⟨cur, ?_, ?_, ?_⟩
            · simp [currentVersionOf, hjob, hcur]
            · rw [show (MainApi.editApply db jid ridx f v.trim cur target, true).1 =
                  MainApi.editApply db jid ridx f v.trim cur target from rfl]
              rw [editApply_versions]
              exact List.mem_append_right _ (by simp)
            · rw [show (MainApi.editApply db jid ridx f v.trim cur target, true).1 =
                  MainApi.editApply db jid ridx f v.trim cur target from rfl]
              simp only [currentVersionOf]
              rw [editApply_findJob, hjob]
              rfl
  · intro jid2 vid2
    simp only [MainApi.rollback_to_version]
    split
    · exact ⟨rfl, rfl, rfl⟩
    · exact ⟨rfl, rfl, rfl⟩

/-- Witness for `version_immutability` on a concrete store and edit. -/
theorem version_immutability_witness :
    recordsOfVersion (MainApi.ui_edit_record dbJob1V1 1 0 "NPI" "1234567890").1 1 =
      recordsOfVersion dbJob1V1 1 ∧
    issuesOfVersion (MainApi.ui_edit_record dbJob1V1 1 0 "NPI" "1234567890").1 1 =
      issuesOfVersion dbJob1V1 1 ∧
    ((MainApi.ui_edit_record dbJob1V1 1 0 "NPI" "1234567890").2 = true →
      ∃ cur, currentVersionOf dbJob1V1 1 = some cur ∧
        (⟨dbJob1V1.nextVersionId, 1, some cur, "user", "Edit field in row"⟩ : VersionRow) ∈
          (MainApi.ui_edit_record dbJob1V1 1 0 "NPI" "1234567890").1.versions ∧
        currentVersionOf (MainApi.ui_edit_record dbJob1V1 1 0 "NPI" "1234567890").1 1 =
          some dbJob1V1.nextVersionId) := by
  have h := version_immutability dbJob1V1 1 0 "NPI" "1234567890" (by decide)
  have h1 := h.1 ⟨1, 1, none, "system", "auto extract"⟩ (by decide)
  exact ⟨h1.1, h1.2.1, h.2.1⟩

end ClaimC3

section ClaimC7

/-- Claim C7: rollback behaviour at a concrete store.  The operation validates
ownership, repoints the job and deletes or mutates no Version, Record or
Issue — but the AuditLog entry's before-state snapshot records the NEW
pointer (3), not the prior pointer (5): the audit dict is built after
`job.current_version_id` has already been reassigned. -/
theorem rollback_audit_before_snapshot_bug :
    (MainApi.rollback_to_version dbRollback 1 3).2 = true ∧
    currentVersionOf dbRollback 1 = some 5 ∧
    currentVersionOf (MainApi.rollback_to_version dbRollback 1 3).1 1 = some 3 ∧
    (MainApi.rollback_to_version dbRollback 1 3).1.versions = dbRollback.versions ∧
    (MainApi.rollback_to_version dbRollback 1 3).1.records = dbRollback.records ∧
    (MainApi.rollback_to_version dbRollback 1 3).1.issues = dbRollback.issues ∧
    (MainApi.rollback_to_version dbRollback 1 3).1.audits =
      [⟨1, 1, "user", "rollback",
        some [("current_version_id", JVal.jnat 3)],
        some [("current_version_id", JVal.jnat 3)]⟩] := by
  decide

end ClaimC7

section ClaimC8

/-- The graph's trace always contains the intake, classify, extract, normalize
and validate stages, whatever the agent outcomes: no edge of
`create_processing_graph` tests `error`, so a stage error does not stop the
sequence. -/
theorem graphExec_trace_always (o : Orchestrator.AgentsOutcome) (db : DB)
    (s0 : Orchestrator.PState) :
    Orchestrator.Stage.intake ∈ (Orchestrator.graphExec o db s0).2.2 ∧
    Orchestrator.Stage.classify ∈ (Orchestrator.graphExec o db s0).2.2 ∧
    Orchestrator.Stage.extract ∈ (Orchestrator.graphExec o db s0).2.2 ∧
    Orchestrator.Stage.normalize ∈ (Orchestrator.graphExec o db s0).2.2 ∧
    Orchestrator.Stage.validate ∈ (Orchestrator.graphExec o db s0).2.2 := by
  unfold Orchestrator.graphExec
  dsimp only
  split <;> split <;> simp

/-- The trace returned by `run_graph` is the trace of the graph invocation
(the persistence step does not change it). -/
theorem run_graph_trace (o : Orchestrator.AgentsOutcome) (db : DB) (jid : Nat) :
    (Orchestrator.run_graph o db jid).2.2 =
      (Orchestrator.graphExec o db
        { job_id := jid, status := Orchestrator.PStatus.processing }).2.2 := by
  unfold Orchestrator.run_graph
  cases hg : Orchestrator.graphExec o db
      { job_id := jid, status := Orchestrator.PStatus.processing } with
  | mk db1 p =>
    cases p with
    | mk s tr =>
      simp only [hg]
      split <;> rfl

/-- Claim C8 (as amended): stage failures are values and the simple sequential
pipeline short-circuits — after an intake error no later step executes and
the failure comes back as a failed result value — but the LangGraph
orchestrator does not short-circuit: its unconditional edges still execute
classify, extract, normalize and validate after the intake stage has set the
Context's error field. -/
theorem short_circuit_amended (o : Orchestrator.AgentsOutcome) (db : DB)
    (jid : Nat) (e : String) (h : o.intakeErr = some e) :
    ((SimplePipeline.process_job_simple o db jid).2.2 = [SimplePipeline.SStage.intake] ∧
     (SimplePipeline.process_job_simple o db jid).2.1.status = Orchestrator.PStatus.failed ∧
     (SimplePipeline.process_job_simple o db jid).2.1.error.isSome = true ∧
     (SimplePipeline.process_job_simple o db jid).1 = db) ∧
    (Orchestrator.Stage.classify ∈ (Orchestrator.run_graph o db jid).2.2 ∧
     Orchestrator.Stage.extract ∈ (Orchestrator.run_graph o db jid).2.2 ∧
     Orchestrator.Stage.normalize ∈ (Orchestrator.run_graph o db jid).2.2 ∧
     Orchestrator.Stage.validate ∈ (Orchestrator.run_graph o db jid).2.2) := by
  constructor
  · simp [SimplePipeline.process_job_simple, h, SimplePipeline.failedResult]
  · rw [run_graph_trace]
    have hg := graphExec_trace_always o db
      { job_id := jid, status := Orchestrator.PStatus.processing }
    exact ⟨hg.2.1, hg.2.2.1, hg.2.2.2.1, hg.2.2.2.2⟩

/-- Witness for `short_circuit_amended` at a concrete failing intake. -/
theorem short_circuit_amended_witness :
    (SimplePipeline.process_job_simple oIntakeFail dbJob1 1).2.2 =
      [SimplePipeline.SStage.intake] ∧
    Orchestrator.Stage.validate ∈ (Orchestrator.run_graph oIntakeFail dbJob1 1).2.2 := by
  have h := short_circuit_amended oIntakeFail dbJob1 1 "boom" (by decide)
  exact ⟨h.1.1, h.2.2.2.2⟩

/-- Claim C8 counterexample: in the LangGraph orchestrator a run whose intake
stage sets `error` still executes every later stage — including
Commit-Version and Export — so the "no later stage executes" part of the
claim is false on the graph driver. -/
theorem graph_no_short_circuit_cex :
    (Orchestrator.run_graph oIntakeFail dbJob1 1).2.1.error.isSome = true ∧
    Orchestrator.Stage.classify ∈ (Orchestrator.run_graph oIntakeFail dbJob1 1).2.2 ∧
    Orchestrator.Stage.validate ∈ (Orchestrator.run_graph oIntakeFail dbJob1 1).2.2 ∧
    Orchestrator.Stage.version ∈ (Orchestrator.run_graph oIntakeFail dbJob1 1).2.2 ∧
    Orchestrator.Stage.exportExcel ∈ (Orchestrator.run_graph oIntakeFail dbJob1 1).2.2 := by
  decide

end ClaimC8

section ClaimC9

/-- Claim C9 (as amended): an ingest whose content hash or Message-ID matches
a stored Email never creates a new Email, Job or Version row (the store is
returned unchanged), but the `duplicate` response with the existing job's id
is returned only when the matched Email still has a Job.  When that Job is
gone (the cleanup task deletes Jobs but not Emails) the duplicate branch
falls through to creation, whose Email insert violates the
`emails.message_id` UNIQUE constraint — the matched Email already holds the
request's Message-ID, since a hash match means the very same bytes — so the
transaction rolls back and the handler answers HTTP 500.  The honesty
hypothesis `hhon` states what ingestion guarantees of every stored row: its
`message_id` column is the Message-ID parsed from the bytes its `hash`
column digests. -/
theorem duplicate_ingest_amended (db : DB) (m : Nat) (rq : MainApi.IngestReq)
    (e0 : EmailRow)
    (hfn : rq.filename ≠ "")
    (heml : MainApi.lowerEndsWithEml rq.filename = true)
    (hsz : rq.content.size ≠ 0)
    (hmax : ¬(m * 1024 * 1024 < rq.content.size))
    (hmid : rq.content.message_id ≠ "")
    (hfrom : rq.content.from_addr ≠ "")
    (hhon : ∀ e ∈ db.emails, e.message_id = e.hash.message_id)
    (he : db.emails.find?
      (fun e => e.message_id == rq.content.message_id || e.hash == rq.content) = some e0) :
    (MainApi.ingest_eml_file db m rq).1 = db ∧
    ((∃ j0, db.jobs.find? (fun j => j.email_id == e0.id) = some j0 ∧
        (MainApi.ingest_eml_file db m rq).2 = MainApi.IngestResp.dup j0.id) ∨
      (db.jobs.find? (fun j => j.email_id == e0.id) = none ∧
        (MainApi.ingest_eml_file db m rq).2 = MainApi.IngestResp.serverError)) := by
  have hmem : e0 ∈ db.emails := List.mem_of_find?_eq_some he
  have hpred : e0.message_id = rq.content.message_id ∨ e0.hash = rq.content := by
    have hb := List.find?_some he
    simpa using hb
  have hmidEq : e0.message_id = rq.content.message_id := by
    rcases hpred with h1 | h2
    · exact h1
    · rw [hhon e0 hmem, h2]
  have hany : db.emails.any (fun e => e.message_id == rq.content.message_id) = true := by
    rw [List.any_eq_true]
    exact ⟨e0, hmem, by simp [hmidEq]⟩
  simp only [MainApi.ingest_eml_file, if_neg hfn,
    if_neg (show ¬(MainApi.lowerEndsWithEml rq.filename = false) by simp [heml]),
    if_neg hsz, if_neg hmax, if_neg hmid, if_neg hfrom, he]
  cases hj : db.jobs.find? (fun j => j.email_id == e0.id) with
  | some j => exact ⟨by trivial, Or.inl ⟨j, by trivial, by trivial⟩⟩
  | none =>
      simp only [MainApi.ingestCreate, if_pos hany]
      exact ⟨by trivial, Or.inr ⟨by trivial, by trivial⟩⟩

/-- Witness for `duplicate_ingest_amended` at a concrete store and request:
the matched Email still has its Job, so the response is `duplicate`. -/
theorem duplicate_ingest_amended_witness :
    (MainApi.ingest_eml_file dbDup 25 rqDup).1 = dbDup ∧
    ((∃ j0, dbDup.jobs.find?
        (fun j => j.email_id ==
          (⟨1, "m1", "a@x", "b@x", "s", "s3://raw/object.eml", cOld⟩ : EmailRow).id) =
            some j0 ∧
        (MainApi.ingest_eml_file dbDup 25 rqDup).2 = MainApi.IngestResp.dup j0.id) ∨
      (dbDup.jobs.find?
        (fun j => j.email_id ==
          (⟨1, "m1", "a@x", "b@x", "s", "s3://raw/object.eml", cOld⟩ : EmailRow).id) =
            none ∧
        (MainApi.ingest_eml_file dbDup 25 rqDup).2 = MainApi.IngestResp.serverError)) := by
  exact duplicate_ingest_amended dbDup 25 rqDup
    ⟨1, "m1", "a@x", "b@x", "s", "s3://raw/object.eml", cOld⟩
    (by decide) (by decide) (by decide) (by decide) (by decide) (by decide)
    (by decide) (by decide)

/-- Claim C9 counterexample: re-uploading the stored email's exact bytes
after its Job was cleaned up is NOT answered with status duplicate and the
existing job's id — the duplicate branch falls through, creation trips the
`emails.message_id` UNIQUE constraint, and the handler answers HTTP 500;
no new Email, Job or Version row is created. -/
theorem duplicate_ingest_orphan_cex :
    (MainApi.ingest_eml_file dbOrphan 25 rqSame).2 = MainApi.IngestResp.serverError ∧
    (MainApi.ingest_eml_file dbOrphan 25 rqSame).1 = dbOrphan := by
  decide

end ClaimC9

section ClaimC10

/-- Claim C10: a successful non-duplicate ingest creates the Email, the Job,
an initial Version with no Records, the pointer update and the audit entry in
one transaction; the new Job's `current_version_id` already points at the
initial version, so it is non-null from the moment the Job exists. -/
theorem ingest_initial_version (db : DB) (m : Nat) (rq : MainApi.IngestReq)
    (hfn : rq.filename ≠ "")
    (heml : MainApi.lowerEndsWithEml rq.filename = true)
    (hsz : rq.content.size ≠ 0)
    (hmax : ¬(m * 1024 * 1024 < rq.content.size))
    (hmid : rq.content.message_id ≠ "")
    (hfrom : rq.content.from_addr ≠ "")
    (hnone : db.emails.find?
      (fun e => e.message_id == rq.content.message_id || e.hash == rq.content) = none)
    (hfreshJ : ∀ j ∈ db.jobs, j.id ≠ db.nextJobId)
    (hfreshR : ∀ r ∈ db.records, r.version_id ≠ db.nextVersionId) :
    (MainApi.ingest_eml_file db m rq).2 =
      MainApi.IngestResp.created db.nextJobId db.nextEmailId db.nextVersionId ∧
    findJob (MainApi.ingest_eml_file db m rq).1 db.nextJobId =
      some ⟨db.nextJobId, db.nextEmailId, JobStatus.pending, some db.nextVersionId⟩ ∧
    recordsOfVersion (MainApi.ingest_eml_file db m rq).1 db.nextVersionId = [] ∧
    (⟨db.nextVersionId, db.nextJobId, none, "system", "Initial ingestion"⟩ : VersionRow) ∈
      (MainApi.ingest_eml_file db m rq).1.versions := by
  have hall := List.find?_eq_none.mp hnone
  have han : ¬(db.emails.any (fun e => e.message_id == rq.content.message_id) = true) := by
    rw [List.any_eq_true]
    rintro ⟨e, he, hbe⟩
    exact hall e he (by simp_all)
  simp only [MainApi.ingest_eml_file, if_neg hfn,
    if_neg (show ¬(MainApi.lowerEndsWithEml rq.filename = false) by simp [heml]),
    if_neg hsz, if_neg hmax, if_neg hmid, if_neg hfrom, hnone]
  simp only [MainApi.ingestCreate, if_neg han]
  refine ⟨trivial, ?_, ?_, ?_⟩
  · simp only [findJob, List.find?_append]
    rw [List.find?_eq_none.mpr]
    · simp
    · intro j hj
      simp [hfreshJ j hj]
  · exact recordsOfVersion_eq_nil_of_fresh _ _ (fun r hr => hfreshR r hr)
  · simp

/-- Witness for `ingest_initial_version` on an empty store. -/
theorem ingest_initial_version_witness :
    (MainApi.ingest_eml_file {} 25 rqFresh).2 = MainApi.IngestResp.created 1 1 1 ∧
    findJob (MainApi.ingest_eml_file {} 25 rqFresh).1 1 =
      some ⟨1, 1, JobStatus.pending, some 1⟩ ∧
    recordsOfVersion (MainApi.ingest_eml_file {} 25 rqFresh).1 1 = [] := by
  have h := ingest_initial_version {} 25 rqFresh (by decide) (by decide) (by decide)
    (by decide) (by decide) (by decide) (by decide)
    (by intro j hj; cases hj) (by intro r hr; cases hr)
  exact ⟨h.1, h.2.1, h.2.2.1⟩

end ClaimC10

section ClaimC4

/-- Claim C4 (as amended): no Version committed during a Resume carries the
resumed version as its parent — every Version row added anywhere in a
`resume_graph` invocation has `parent_version_id = NULL`, because neither the
reconstructed state nor the versioner agent-state carries a
`parent_version_id`, and the result-persistence step also creates its Version
without a parent. -/
theorem resume_versions_parentless (o : Orchestrator.AgentsOutcome) (db : DB)
    (jid vid : Nat) :
    ∀ v ∈ (Orchestrator.resume_graph o db jid vid).1.versions,
      v ∈ db.versions ∨ v.parent_version_id = none := by
  intro v hv
  unfold Orchestrator.resume_graph at hv
  split at hv
  · exact Or.inl hv
  · split at hv
    · exact Or.inl hv
    · dsimp only at hv
      split at hv
      · rename_i db2 heq2
        dsimp only at hv
        rcases persist_versions_mem _ _ db2 heq2 v hv with h | h
        · exact graphExec_fst_versions_mem _ _ _ v h
        · exact Or.inr h
      · dsimp only at hv
        exact graphExec_fst_versions_mem _ _ _ v hv

/-- Witness for `resume_versions_parentless`: the Version that the resumed
run commits and repoints the job to (id 3) is not in the prior store, so the
theorem forces its parent to be null. -/
theorem resume_versions_parentless_witness :
    currentVersionOf (Orchestrator.resume_graph oGood dbJob1V1 1 1).1 1 = some 3 ∧
    ((⟨3, 1, none, "system", "LangGraph orchestrated processing"⟩ : VersionRow) ∈ dbJob1V1.versions ∨
      (⟨3, 1, none, "system", "LangGraph orchestrated processing"⟩ : VersionRow).parent_version_id = none) := by
  refine ⟨by decide, ?_⟩
  exact resume_versions_parentless oGood dbJob1V1 1 1
    ⟨3, 1, none, "system", "LangGraph orchestrated processing"⟩ (by decide)

/-- Claim C4 counterexample: resuming job 1 from version 1 with collaborators
that succeed with zero error-issues reaches Commit-Version (the `version`
stage is in the trace), yet afterwards no Version of the store — in
particular not the new current one — has `parent_version_id = 1`: the
resumed version id is never propagated as the parent. -/
theorem resume_parentage_cex :
    Orchestrator.Stage.version ∈ (Orchestrator.resume_graph oGood dbJob1V1 1 1).2.2 ∧
    currentVersionOf (Orchestrator.resume_graph oGood dbJob1V1 1 1).1 1 = some 3 ∧
    (Orchestrator.resume_graph oGood dbJob1V1 1 1).1.versions.all
      (fun v => !(v.parent_version_id == some 1)) = true ∧
    (Orchestrator.resume_graph oGood dbJob1V1 1 1).1.versions.length = 3 := by
  decide

end ClaimC4

section ClaimC5

/-- Claim C5 (code bug, evaluated at the failing input): a fresh Job whose
collaborator stages all succeed with zero error-severity issues does NOT end
`ready` with one new Version and an Export.  The versioner aborts on the
nonexistent `JobStatus.COMPLETED` attribute, the export stage never receives
a version id (the `version_info`/`version_id` key mismatch) and fails, and
the run ends `failed` having created TWO Versions and no Export. -/
theorem scenario_a_failing_run :
    (Orchestrator.run_graph oGood dbJob1 1).2.1.status = Orchestrator.PStatus.failed ∧
    (Orchestrator.run_graph oGood dbJob1 1).2.1.error.isSome = true ∧
    (Orchestrator.run_graph oGood dbJob1 1).2.1.failed_agent = some "exporter_excel" ∧
    (Orchestrator.run_graph oGood dbJob1 1).1.exports = [] ∧
    (Orchestrator.run_graph oGood dbJob1 1).1.versions.length = dbJob1.versions.length + 2 ∧
    (findJob (Orchestrator.run_graph oGood dbJob1 1).1 1).map (fun j => j.status) =
      some JobStatus.failed := by
  decide

end ClaimC5

section ClaimC2

/-- Claim C2 (as amended): a run whose Validate stage reports at least one
error-severity issue terminates with result status `needs_review`, the
Commit-Version and Export stages do not execute and no Export row is created
— but the attempt's in-memory rows and issues ARE persisted: the
result-persistence step creates a new parentless Version holding exactly
those rows and issues, sets the Job's status to `needs_review` and advances
`current_version_id` to the new Version. -/
theorem review_gate_amended (o : Orchestrator.AgentsOutcome) (db : DB) (jid : Nat)
    (j : JobRow)
    (h1 : o.intakeErr = none) (h2 : o.classifyErr = none) (h3 : o.extractErr = none)
    (h4 : o.vlmErr = none) (h5 : o.normErr = none) (h6 : o.valErr = none)
    (hec : 0 < o.valErrorCount)
    (hjob : findJob db jid = some j)
    (hSome : (Orchestrator.routedRows o).all (fun r => r.row_idx.isSome) = true)
    (hDup : dupFree ((Orchestrator.routedRows o).map inRowIdx) = true)
    (hfreshR : ∀ r ∈ db.records, r.version_id ≠ db.nextVersionId)
    (hfreshI : ∀ i ∈ db.issues, i.version_id ≠ db.nextVersionId) :
    (Orchestrator.run_graph o db jid).2.1.status = Orchestrator.PStatus.needs_review ∧
    Orchestrator.Stage.version ∉ (Orchestrator.run_graph o db jid).2.2 ∧
    Orchestrator.Stage.exportExcel ∉ (Orchestrator.run_graph o db jid).2.2 ∧
    (Orchestrator.run_graph o db jid).1.exports = db.exports ∧
    (Orchestrator.run_graph o db jid).1.versions =
      db.versions ++
        [⟨db.nextVersionId, jid, none, "system", "LangGraph orchestrated processing"⟩] ∧
    (recordsOfVersion (Orchestrator.run_graph o db jid).1 db.nextVersionId).map
        (fun r => (r.row_idx, r.payload_json)) =
      (Orchestrator.routedRows o).map (fun r => (inRowIdx r, r.data)) ∧
    (issuesOfVersion (Orchestrator.run_graph o db jid).1 db.nextVersionId).map
        (fun i => (i.row_idx, i.field, i.level, i.message)) =
      o.valIssues.map (fun i => (i.row_idx, i.field, i.level, i.message)) ∧
    currentVersionOf (Orchestrator.run_graph o db jid).1 jid = some db.nextVersionId ∧
    (findJob (Orchestrator.run_graph o db jid).1 jid).map (fun q => q.status) =
      some JobStatus.needs_review := by
  have hg := graphExec_gate_stops o db jid h1 h2 h3 h4 h5 h6 hec
  obtain ⟨db2, hpe, hver, hexp, hrec, hiss, hfind⟩ :=
    persistWith_fresh
      { db with
        versions := db.versions ++
          [⟨db.nextVersionId, jid, none, "system", "LangGraph orchestrated processing"⟩],
        nextVersionId := db.nextVersionId + 1 }
      (Orchestrator.stateAfterValidate o jid)
      (Orchestrator.persistStatus (Orchestrator.stateAfterValidate o jid))
      db.nextVersionId j hjob hSome hDup (fun r hr => hfreshR r hr) (fun i hi => hfreshI i hi)
  have hper : Orchestrator.persist_graph_results db (Orchestrator.stateAfterValidate o jid) =
      some db2 := by
    unfold Orchestrator.persist_graph_results
    rw [show (Orchestrator.stateAfterValidate o jid).job_id = jid from rfl, hjob]
    rw [show (Orchestrator.stateAfterValidate o jid).version_id = none from rfl]
    exact hpe
  have hrun : Orchestrator.run_graph o db jid =
      (db2,
        { job_id := jid, status := Orchestrator.PStatus.needs_review, version_id := none,
          error := none, failed_agent := none },
        Orchestrator.gateTrace o) := by
    unfold Orchestrator.run_graph
    dsimp only
    rw [hg]
    dsimp only
    rw [hper]
    rfl
  rw [hrun]
  have hstat : Orchestrator.persistStatus (Orchestrator.stateAfterValidate o jid) =
      JobStatus.needs_review := by
    simp [Orchestrator.persistStatus, Orchestrator.stateAfterValidate]
  refine ⟨rfl, ?_, ?_, ?_, ?_, ?_, ?_, ?_, ?_⟩
  · cases hb : o.requires_vlm <;> simp [Orchestrator.gateTrace, hb]
  · cases hb : o.requires_vlm <;> simp [Orchestrator.gateTrace, hb]
  · exact hexp
  · exact hver
  · exact hrec
  · exact hiss
  · show currentVersionOf db2 jid = some db.nextVersionId
    unfold currentVersionOf
    rw [show findJob db2 jid = some { j with
      status := Orchestrator.persistStatus (Orchestrator.stateAfterValidate o jid),
      current_version_id := some db.nextVersionId } from hfind]
  · show (findJob db2 jid).map (fun q => q.status) = some JobStatus.needs_review
    rw [show findJob db2 jid = some { j with
      status := Orchestrator.persistStatus (Orchestrator.stateAfterValidate o jid),
      current_version_id := some db.nextVersionId } from hfind]
    simp [hstat]

/-- Witness for `review_gate_amended` at a concrete store and a validator
outcome carrying one error-severity issue. -/
theorem review_gate_amended_witness :
    (Orchestrator.run_graph oBad dbJob1 1).2.1.status = Orchestrator.PStatus.needs_review ∧
    Orchestrator.Stage.version ∉ (Orchestrator.run_graph oBad dbJob1 1).2.2 ∧
    (Orchestrator.run_graph oBad dbJob1 1).1.exports = dbJob1.exports ∧
    currentVersionOf (Orchestrator.run_graph oBad dbJob1 1).1 1 = some dbJob1.nextVersionId := by
  have h := review_gate_amended oBad dbJob1 1 ⟨1, 1, JobStatus.pending, none⟩
    (by decide) (by decide) (by decide) (by decide) (by decide) (by decide) (by decide)
    (by decide) (by decide) (by decide) (by decide) (by decide)
  exact ⟨h.1, h.2.1, h.2.2.2.1, h.2.2.2.2.2.2.2.1⟩

/-- Claim C2 counterexample: a run stopped by the review gate (status
`needs_review`, no Export, Commit-Version never executed) nevertheless has
its rows and issues persisted — the store afterwards holds a new Version
whose records are exactly the attempt's rows and whose issue set is the
attempt's issues, and the Job now points at it.  This contradicts the
claim's "not persisted as a new Version's committed data". -/
theorem review_gate_persists_data_cex :
    (Orchestrator.run_graph oBad dbJob1 1).2.1.status = Orchestrator.PStatus.needs_review ∧
    (Orchestrator.run_graph oBad dbJob1 1).1.exports = [] ∧
    Orchestrator.Stage.version ∉ (Orchestrator.run_graph oBad dbJob1 1).2.2 ∧
    (Orchestrator.run_graph oBad dbJob1 1).1.versions ≠ dbJob1.versions ∧
    recordsOfVersion (Orchestrator.run_graph oBad dbJob1 1).1 1 ≠ [] ∧
    issuesOfVersion (Orchestrator.run_graph oBad dbJob1 1).1 1 ≠ [] ∧
    currentVersionOf (Orchestrator.run_graph oBad dbJob1 1).1 1 = some 1 := by
  decide

end ClaimC2

end ByeLabs
